import Mathlib

/-!
Verification development for the timetable scheduler in
`src/scheduler/timetable_scheduler.py`.

The Python module is embedded shallowly: every scheduler-level function is
translated into an executable Lean definition, machine integers become `Nat`,
Python dictionaries keyed by day / room-name / cohort become a single global
list that is filtered by the corresponding field (the source only ever appends
the same entry object to `bookings[day]` and `rooms_state[room]`, so the
per-key lists are exactly the filters of one global ledger), and the
`random.shuffle` calls are modelled by oracle functions indexed by a counter
that advances at least once per shuffle call, so that every sequence of
shuffle outcomes of the Python PRNG is realised by some oracle.
-/

namespace Timetable

/-! ## Character-level string helpers

The Python code uses `str.split`, `str.strip`, `str.lower`, `int(...)` and
substring tests.  They are modelled here structurally over `String.data`
(lists of characters) so that every definition reduces inside the kernel.
`int(...)` applied to the split parts is modelled as decimal-digit parsing:
after a split on `"-"` or `":"` no sign character can remain in a part, so
digit parsing agrees with Python `int` on all inputs the scheduler splits. -/

/-- Whitespace recognised by the model of Python `str.strip`. -/
def isSpaceChar (c : Char) : Bool :=
  c == ' ' || c == '\t' || c == '\n' || c == '\r'

/-- Model of Python `str.strip` on a character list. -/
def trimChars (cs : List Char) : List Char :=
  ((cs.dropWhile isSpaceChar).reverse.dropWhile isSpaceChar).reverse

/-- Model of Python `str.strip`. -/
def strTrim (s : String) : String :=
  ⟨trimChars s.data⟩

/-- Model of Python `str.split(sep)` for a one-character separator:
`splitOnChar sep cs` returns the (possibly empty) parts between occurrences
of `sep`, and `[[]]` on the empty string, exactly like `"".split(sep)`. -/
def splitOnChar (sep : Char) : List Char → List (List Char)
  | [] => [[]]
  | c :: cs =>
    let rest := splitOnChar sep cs
    if c == sep then [] :: rest
    else
      match rest with
      | [] => [[c]]
      | p :: ps => (c :: p) :: ps

/-- Decimal digit value of a character, `none` for a non-digit. -/
def digitVal (c : Char) : Option Nat :=
  if 48 ≤ c.toNat ∧ c.toNat ≤ 57 then some (c.toNat - 48) else none

/-- Model of Python `int(...)` on one split-and-stripped part: parses a
non-empty all-digit character list, `none` (Python: `ValueError`) otherwise. -/
def parseNatChars (cs : List Char) : Option Nat :=
  if cs.isEmpty then none
  else
    cs.foldl
      (fun acc c =>
        match acc, digitVal c with
        | some n, some d => some (n * 10 + d)
        | _, _ => none)
      (some 0)

/-- ASCII lower-casing of one character (model of `str.lower` for the room
type strings, which are ASCII in this code base). -/
def lowerChar (c : Char) : Char :=
  if 65 ≤ c.toNat ∧ c.toNat ≤ 90 then Char.ofNat (c.toNat + 32) else c

/-- Model of Python `str.lower`. -/
def strLower (s : String) : String :=
  ⟨s.data.map lowerChar⟩

/-- Whether `cs` starts with `needle`. -/
def leadsWith : List Char → List Char → Bool
  | [], _ => true
  | _ :: _, [] => false
  | p :: ps, c :: cs => p == c && leadsWith ps cs

/-- Whether `needle` occurs as a contiguous subsequence of the list. -/
def containsSeq (needle : List Char) : List Char → Bool
  | [] => leadsWith needle []
  | c :: cs => leadsWith needle (c :: cs) || containsSeq needle cs

/-- Model of Python `"lab" in r["type"].lower()`. -/
def typeHasLab (roomType : String) : Bool :=
  containsSeq "lab".data (roomType.data.map lowerChar)

/-! ## Time helpers (source lines 20-31) -/

/-- Source `time_to_min`: `h, m = t.split(":"); return int(h)*60 + int(m)`.
A malformed time string (which would raise in Python; the configuration is
trusted upstream per the spec) is mapped to `0`. -/
def time_to_min (t : String) : Nat :=
  match (splitOnChar ':' t.data).map parseNatChars with
  | [some h, some m] => h * 60 + m
  | _ => 0

/-- Source `slot_to_range`: `start, end = slot.split("-")`. -/
def slot_to_range (slot : String) : Nat × Nat :=
  match splitOnChar '-' slot.data with
  | [a, b] => (time_to_min ⟨a⟩, time_to_min ⟨b⟩)
  | _ => (0, 0)

/-- Source `ranges_overlap`: `not (a[1] <= b[0] or b[1] <= a[0])`. -/
def ranges_overlap (a b : Nat × Nat) : Bool :=
  !(decide (a.2 ≤ b.1) || decide (b.2 ≤ a.1))

/-! ## Data model -/

/-- One normalized classroom record as produced by `_normalize_classrooms`
(source lines 66-79): name, integer capacity, type string. -/
structure Room where
  name : String
  capacity : Nat
  type : String
deriving DecidableEq, Repr

/-- One committed booking entry, exactly the dict built by `_add_booking`
(source lines 172-176).  The same entry is appended to `bookings[day]` and
`rooms_state[room_name]`; here a single global ledger list is kept and the
per-day / per-room lists are recovered by filtering on the `day` / `room`
fields. -/
structure Booking where
  slot : String
  range : Nat × Nat
  room : String
  faculty : String
  branch : String
  sem : String
  course : String
  type : String
  day : String
deriving DecidableEq, Repr

/-- One session demand: the fields extracted from a course row when the
phases build their per-session work lists (`code`, `title`, stripped
`faculty`, integer `strength`). -/
structure SessionReq where
  code : String
  title : String
  faculty : String
  strength : Nat
deriving DecidableEq, Repr

/-- One output row of a branch/semester timetable (the dicts appended to
`timetable_rows`).  `course` is the human-readable description string. -/
structure Row where
  day : String
  slot : String
  course : String
  faculty : String
  room : String
  code : String
  title : String
  session_type : String
  strength : Nat
deriving DecidableEq, Repr

/-- One input course row, after the external CSV ingestion / column
normalization that the spec excludes from the core: `strength` has already
passed `_to_int`, `ctype` is the raw `Type` column, `ltpsc` is the raw LTPSC
cell (`none` models a missing / NaN cell). -/
structure CourseRow where
  code : String
  title : String
  faculty : String
  strength : Nat
  ctype : String
  ltpsc : Option String
deriving DecidableEq, Repr

/-- The per-day cohort reservation `student_bookings[branch][sem][day]`:
again one global list filtered by `(branch, sem, day)`. -/
structure StudentEntry where
  branch : String
  sem : String
  day : String
  range : Nat × Nat
deriving DecidableEq, Repr

/-- Mutable scheduler state threaded through one `generate_all` run:
the booking ledger (`bookings` plus `rooms_state`), the cohort reservations
(`student_bookings`), and the shuffle-oracle counter `rk`.
`course_day_presence` of the source is write-only (never read by any
decision) and is therefore not modelled. -/
structure St where
  ledger : List Booking
  studentB : List StudentEntry
  rk : Nat
deriving Repr

/-- Slot-pool configuration as read in `__init__` (source lines 36-60); the
slot strings are already formatted `"HH:MM-HH:MM"` as the f-string there
produces them. -/
structure Config where
  days : List String
  lecture_slots : List String
  tutorial_slots : List String
  lab_slots : List String
  minor_slots : List String
deriving Repr

/-- Session durations in minutes (source line 47). -/
def durLecture : Nat := 90

/-- Tutorial duration in minutes (source line 47). -/
def durTutorial : Nat := 60

/-- Lab duration in minutes (source line 47). -/
def durLab : Nat := 120

/-! ## LTPSC parsing and session expansion (source lines 87-107) -/

/-- The five integer fields of an LTPSC string, or `none` when any of the
first five dash-separated, stripped parts fails `int(...)` (source line 98's
`try` block). -/
def parse_ltpsc_fields (s : String) : Option (Nat × Nat × Nat × Nat × Nat) :=
  let parts := (splitOnChar '-' s.data).map trimChars
  let padded := parts ++ List.replicate (5 - parts.length) ['0']
  match padded.take 5 with
  | [p1, p2, p3, p4, p5] =>
    match parseNatChars p1, parseNatChars p2, parseNatChars p3,
        parseNatChars p4, parseNatChars p5 with
    | some a, some b, some c, some d, some e => some (a, b, c, d, e)
    | _, _, _, _, _ => none
  | _ => none

/-- Source `_parse_ltpsc`: hours per week `(L, T, P)`; a missing cell or a
parse failure yields `(0, 0, 0)`. -/
def parse_ltpsc (ltpsc : Option String) : Nat × Nat × Nat :=
  match ltpsc with
  | none => (0, 0, 0)
  | some s =>
    match parse_ltpsc_fields s with
    | some (a, b, c, _, _) => (a, b, c)
    | none => (0, 0, 0)

/-- Ceiling division on naturals, the integer value of Python
`math.ceil((hours * 60) / duration)`. -/
def ceilDiv (a b : Nat) : Nat :=
  (a + b - 1) / b

/-- Source `_slots_needed`: per-kind slot counts
`(lecture, tutorial, lab)`. -/
def slots_needed (lh th ph : Nat) : Nat × Nat × Nat :=
  ((if lh > 0 then ceilDiv (lh * 60) durLecture else 0),
   (if th > 0 then ceilDiv (th * 60) durTutorial else 0),
   (if ph > 0 then ceilDiv (ph * 60) durLab else 0))

/-- Per-kind session counts of one course row: the Session Expander,
`_slots_needed` applied to `_parse_ltpsc` of the row's LTPSC cell. -/
def expandCounts (r : CourseRow) : Nat × Nat × Nat :=
  let p := parse_ltpsc r.ltpsc
  slots_needed p.1 p.2.1 p.2.2

/-- Total session count the Session Expander derives for one course row
(all three kinds). -/
def sessionExpanderCount (r : CourseRow) : Nat :=
  (expandCounts r).1 + (expandCounts r).2.1 + (expandCounts r).2.2

/-! ## Booking ledger queries (source lines 110-134) -/

/-- All committed bookings of one day, `bookings[day]`. -/
def dayBookings (ledger : List Booking) (day : String) : List Booking :=
  ledger.filter (fun b => b.day == day)

/-- All committed bookings of one room on one day:
`[b for b in rooms_state.get(name, []) if b['day'] == day]`. -/
def roomBookingsFor (ledger : List Booking) (name day : String) : List Booking :=
  ledger.filter (fun b => b.room == name && b.day == day)

/-- Source `_room_free`. -/
def room_free (roomBookingsForDay : List Booking) (cand : Nat × Nat) : Bool :=
  roomBookingsForDay.all (fun br => !ranges_overlap br.range cand)

/-- Source `_faculty_free`; `if not fac: return True` is the empty-string
test on the stripped faculty name. -/
def faculty_free (bookingsForDay : List Booking) (fac : String) (cand : Nat × Nat) : Bool :=
  if fac == "" then true
  else bookingsForDay.all (fun br => !(br.faculty == fac && ranges_overlap br.range cand))

/-- The recorded ranges `student_bookings[branch][sem][day]`. -/
def studentRangesFor (studentB : List StudentEntry) (branch sem day : String) :
    List (Nat × Nat) :=
  (studentB.filter (fun e => e.branch == branch && e.sem == sem && e.day == day)).map
    (fun e => e.range)

/-- Source `_students_free`. -/
def students_free (studentRangesForDay : List (Nat × Nat)) (cand : Nat × Nat) : Bool :=
  studentRangesForDay.all (fun rng => !ranges_overlap rng cand)

/-! ## Room allocator (source lines 136-170) -/

/-- The filter applied to each classroom in `_choose_room_for_session`:
not already used by this group attempt, large enough, lab-typed when
`labOnly`, and free for the candidate range on that day. -/
def roomCandidate (ledger : List Booking) (day : String) (cand : Nat × Nat)
    (strength : Nat) (roomsUsed : List String) (labOnly : Bool) (r : Room) : Bool :=
  !(roomsUsed.contains r.name) &&
  !(r.capacity < strength) &&
  (!labOnly || typeHasLab r.type) &&
  room_free (roomBookingsFor ledger r.name day) cand

/-- The candidate list of `_choose_room_for_session`: the primary filter
(lab-typed rooms only for a lab session), then, for a lab session with no
primary candidate, the fallback scan over rooms of any type. -/
def chooseCandidates (classrooms : List Room) (ledger : List Booking) (day : String)
    (cand : Nat × Nat) (is_lab : Bool) (strength : Nat) (roomsUsed : List String) :
    List Room :=
  let primary := classrooms.filter (roomCandidate ledger day cand strength roomsUsed is_lab)
  if primary.isEmpty && is_lab then
    classrooms.filter (roomCandidate ledger day cand strength roomsUsed false)
  else primary

/-- The first room of minimal capacity in the list: the value of the stable
`candidates.sort(key=lambda x: x["capacity"]); candidates[0]` of the source
(a stable sort followed by head returns the first element of minimal key). -/
def minByCap : List Room → Option Room
  | [] => none
  | r :: rs =>
    some (rs.foldl (fun best x => if x.capacity < best.capacity then x else best) r)

/-- Source `_choose_room_for_session`. -/
def choose_room_for_session (classrooms : List Room) (ledger : List Booking)
    (day : String) (cand : Nat × Nat) (is_lab : Bool) (strength : Nat)
    (roomsUsed : List String) : Option Room :=
  minByCap (chooseCandidates classrooms ledger day cand is_lab strength roomsUsed)

/-! ## Booking commit and the lecture-uniqueness check (source lines 172-187) -/

/-- Source `_add_booking`: append the entry to the ledger (the source appends
the same dict to `bookings[day]` and `rooms_state[room_name]`; both are the
filters of this list). -/
def add_booking (st : St) (day slot : String) (rng : Nat × Nat)
    (roomName fac branch sem course ty : String) : St :=
  { st with ledger := ⟨slot, rng, roomName, fac, branch, sem, course, ty, day⟩ :: st.ledger }

/-- Append one cohort reservation,
`student_bookings[branch][sem][day].append(rng)`. -/
def addStudentRange (st : St) (branch sem day : String) (rng : Nat × Nat) : St :=
  { st with studentB := ⟨branch, sem, day, rng⟩ :: st.studentB }

/-- Source `_same_course_same_day_conflict`: only a `"Lecture"` placement is
blocked, and only by an existing booking whose stored type is exactly
`"Lecture"`. -/
def same_course_same_day_conflict (ledger : List Booking)
    (day branch sem code session_type : String) : Bool :=
  let todays := (dayBookings ledger day).filter
    (fun b => b.branch == branch && b.sem == sem && b.course == code)
  if session_type == "Lecture" then todays.any (fun b => b.type == "Lecture")
  else false

/-! ## Row construction -/

/-- A placed output row: the dicts appended to `timetable_rows` on a commit,
with `course` text `f"{code} - {title} ({label})"`.  For single sessions the
label equals the stored session type; the grouped elective rows use labels
like `"Elective Lecture 1"` while their `session_type` key is `"Lecture"`. -/
def mkRow (s : SessionReq) (day slot roomName label sessTy : String) : Row :=
  { day := day, slot := slot,
    course := s.code ++ " - " ++ s.title ++ " (" ++ label ++ ")",
    faculty := s.faculty, room := roomName, code := s.code, title := s.title,
    session_type := sessTy, strength := s.strength }

/-- An unscheduled sentinel row (`Day "UNSCHEDULED"`, `Slot "N/A"`,
`Room "N/A"`). -/
def mkUnschedRow (s : SessionReq) (label sessTy : String) : Row :=
  mkRow s "UNSCHEDULED" "N/A" "N/A" label sessTy

/-- Duration-tolerance check `abs((rng[1]-rng[0]) - dur) > 5` (the `continue`
branch of every phase loop); `true` means the slot is duration-compatible. -/
def durOk (rng : Nat × Nat) (dur : Nat) : Bool :=
  decide (((rng.2 : Int) - (rng.1 : Int) - (dur : Int)).natAbs ≤ 5)

/-! ## Single-session placement

The four single-session search loops of the source (core labs, core
lectures, core tutorials, and the salvage pass) are the same
day-then-slot scan with the same checks in the same order; they differ only
in the day order, the slot pool, the expected duration and the session type.
The core-lab and core-tutorial loops do not call
`_same_course_same_day_conflict`, but that function returns `False` for any
non-`"Lecture"` session type, so including the call uniformly is
extensionally identical to the source. -/

/-- Scan `dayOrder`, then `pool`, for the first `(day, slot)` whose range
passes the duration tolerance (when `expectedDur` is given), the cohort
check, the same-day-lecture check, the faculty check, and for which
`_choose_room_for_session` finds a room. -/
def findPlacement (classrooms : List Room) (st : St) (branch sem : String)
    (dayOrder pool : List String) (expectedDur : Option Nat) (s : SessionReq)
    (sessTy : String) : Option (String × String × (Nat × Nat) × Room) :=
  dayOrder.findSome? fun day =>
    pool.findSome? fun slot =>
      let rng := slot_to_range slot
      if (match expectedDur with
          | some d => durOk rng d
          | none => true) &&
          students_free (studentRangesFor st.studentB branch sem day) rng &&
          !(same_course_same_day_conflict st.ledger day branch sem s.code sessTy) &&
          faculty_free (dayBookings st.ledger day) s.faculty rng then
        match choose_room_for_session classrooms st.ledger day rng
            (sessTy == "Lab") s.strength [] with
        | some room => some (day, slot, rng, room)
        | none => none
      else none

/-- Place one session: on success commit the booking and the cohort range and
emit the placed row, otherwise emit the sentinel row. -/
def placeOne (classrooms : List Room) (st : St) (branch sem : String)
    (dayOrder pool : List String) (expectedDur : Option Nat) (sessTy : String)
    (s : SessionReq) : Row × St :=
  match findPlacement classrooms st branch sem dayOrder pool expectedDur s sessTy with
  | some (day, slot, rng, room) =>
    let st1 := add_booking st day slot rng room.name s.faculty branch sem s.code sessTy
    let st2 := addStudentRange st1 branch sem day rng
    (mkRow s day slot room.name sessTy sessTy, st2)
  | none => (mkUnschedRow s sessTy sessTy, st)

/-! ## Grouped placement (electives and minors) -/

/-- The inner loop over the members of one group attempt (source lines
440-449, 482-489, 517-526): for each member in order, check the same-day
conflict (only performed with `"Lecture"` as `checkTy` in the elective
lecture track; for the other tracks the call is a no-op exactly like the
absent call in the source), check the faculty against the ledger as it was
before the group commits, and pick a room distinct from the rooms already
used by this attempt.  Returns the room assignment for every member or
`none` when any member fails. -/
def assignGroupRooms (classrooms : List Room) (ledger : List Booking)
    (branch sem day : String) (rng : Nat × Nat) (checkTy : String) :
    List SessionReq → List String → Option (List (SessionReq × String))
  | [], _ => some []
  | e :: rest, used =>
    if same_course_same_day_conflict ledger day branch sem e.code checkTy then none
    else if !(faculty_free (dayBookings ledger day) e.faculty rng) then none
    else
      match choose_room_for_session classrooms ledger day rng false e.strength used with
      | none => none
      | some room =>
        (assignGroupRooms classrooms ledger branch sem day rng checkTy rest
            (room.name :: used)).map
          (fun assigns => (e, room.name) :: assigns)

/-- Scan shuffled days, then the slot pool, for the first `(day, slot)` where
the cohort is free and every group member gets a faculty-free, distinct
room. -/
def findGroupPlacement (classrooms : List Room) (st : St) (branch sem : String)
    (dayOrder pool : List String) (dur : Nat) (checkTy : String)
    (needs : List SessionReq) :
    Option (String × String × (Nat × Nat) × List (SessionReq × String)) :=
  dayOrder.findSome? fun day =>
    pool.findSome? fun slot =>
      let rng := slot_to_range slot
      if durOk rng dur &&
          students_free (studentRangesFor st.studentB branch sem day) rng then
        (assignGroupRooms classrooms st.ledger branch sem day rng checkTy needs []).map
          (fun assigns => (day, slot, rng, assigns))
      else none

/-- Commit a found group: one booking per member (all sharing the same day,
slot and range) followed by a single cohort reservation. -/
def commitGroup (st : St) (branch sem day slot : String) (rng : Nat × Nat)
    (bookTy : String) (assigns : List (SessionReq × String)) : St :=
  let st1 := assigns.foldl
    (fun s p => add_booking s day slot rng p.2 p.1.faculty branch sem p.1.code bookTy) st
  addStudentRange st1 branch sem day rng

/-- Elective bookkeeping entry (source `elective_info`). -/
structure ElecInfo where
  req : SessionReq
  Lslots : Nat
  Tslots : Nat
deriving DecidableEq, Repr

/-- One grouped elective placement attempt for track index `i` (source lines
424-463 for lectures, 466-503 for tutorials): the courses still needing an
index-`i` session are grouped; on success every member is committed into the
identical `(day, slot)`, otherwise every member gets a sentinel row. -/
def electiveGroupStep (classrooms : List Room) (cfg : Config)
    (shufDays : Nat → List String → List String) (branch sem : String)
    (getSlots : ElecInfo → Nat) (pool : List String) (dur : Nat)
    (checkTy bookTy labelBase sessTy : String) (info : List ElecInfo)
    (acc : List Row × St) (i : Nat) : List Row × St :=
  let needs := (info.filter (fun e => i ≤ getSlots e)).map (fun e => e.req)
  if needs.isEmpty then acc
  else
    let st := acc.2
    let dayOrder := shufDays st.rk cfg.days
    let st := { st with rk := st.rk + 1 }
    match findGroupPlacement classrooms st branch sem dayOrder pool dur checkTy needs with
    | some (day, slot, rng, assigns) =>
      (acc.1 ++ assigns.map (fun p => mkRow p.1 day slot p.2 (labelBase ++ toString i) sessTy),
       commitGroup st branch sem day slot rng bookTy assigns)
    | none =>
      (acc.1 ++ needs.map (fun e => mkUnschedRow e (labelBase ++ toString i) sessTy), st)

/-- One elective track (lecture or tutorial): indices `1 .. maxSlots`. -/
def runElectiveTrack (classrooms : List Room) (cfg : Config)
    (shufDays : Nat → List String → List String) (branch sem : String)
    (getSlots : ElecInfo → Nat) (pool : List String) (dur : Nat)
    (checkTy bookTy labelBase sessTy : String) (info : List ElecInfo)
    (maxSlots : Nat) (acc : List Row × St) : List Row × St :=
  (List.range' 1 maxSlots).foldl
    (electiveGroupStep classrooms cfg shufDays branch sem getSlots pool dur
      checkTy bookTy labelBase sessTy info) acc

/-- Session demand extracted from a course row (stripped faculty). -/
def mkReq (r : CourseRow) : SessionReq :=
  { code := r.code, title := r.title, faculty := strTrim r.faculty,
    strength := r.strength }

/-- The sentinel row for an unplaced minor course; the source (line 541)
uses the raw, unstripped faculty cell here. -/
def mkMinorUnschedRow (r : CourseRow) : Row :=
  { day := "UNSCHEDULED", slot := "N/A",
    course := r.code ++ " - " ++ r.title ++ " (Minor)",
    faculty := r.faculty, room := "N/A", code := r.code, title := r.title,
    session_type := "Minor", strength := r.strength }

/-- Phase 3, grouped minors (source lines 505-541): a single session for all
minor courses together; the loop order is slot-then-shuffled-days and the
day list is reshuffled for every minor slot tried (modelled by advancing the
oracle index with the slot position; afterwards the counter skips past the
whole pool). -/
def runMinorPhase (classrooms : List Room) (cfg : Config)
    (shufDays : Nat → List String → List String) (branch sem : String)
    (minors : List CourseRow) (acc : List Row × St) : List Row × St :=
  if minors.isEmpty then acc
  else
    let st := acc.2
    let reqs := minors.map mkReq
    let attempt := (cfg.minor_slots.enum).findSome? fun js =>
      let rng := slot_to_range js.2
      (shufDays (st.rk + js.1) cfg.days).findSome? fun day =>
        if students_free (studentRangesFor st.studentB branch sem day) rng then
          (assignGroupRooms classrooms st.ledger branch sem day rng "Minor" reqs []).map
            (fun assigns => (day, js.2, rng, assigns))
        else none
    let st := { st with rk := st.rk + cfg.minor_slots.length }
    match attempt with
    | some (day, slot, rng, assigns) =>
      (acc.1 ++ assigns.map (fun p => mkRow p.1 day slot p.2 "Minor" "Minor"),
       commitGroup st branch sem day slot rng "Minor" assigns)
    | none => (acc.1 ++ minors.map mkMinorUnschedRow, st)

/-! ## Phases 1, 4, 5 and the salvage pass -/

/-- Phase 1, core labs (source lines 370-407): deterministic day order. -/
def runLabList (classrooms : List Room) (cfg : Config) (branch sem : String)
    (labs : List SessionReq) (acc : List Row × St) : List Row × St :=
  labs.foldl
    (fun acc lab =>
      let r := placeOne classrooms acc.2 branch sem cfg.days cfg.lab_slots
        (some durLab) "Lab" lab
      (acc.1 ++ [r.1], r.2)) acc

/-- Phases 4 and 5, core lectures / tutorials (source lines 555-612): one
session at a time, with a freshly shuffled day order per session. -/
def runCoreSingles (classrooms : List Room) (cfg : Config)
    (shufDays : Nat → List String → List String) (branch sem : String)
    (pool : List String) (dur : Nat) (sessTy : String)
    (sessions : List SessionReq) (acc : List Row × St) : List Row × St :=
  sessions.foldl
    (fun acc s =>
      let st := acc.2
      let dayOrder := shufDays st.rk cfg.days
      let st := { st with rk := st.rk + 1 }
      let r := placeOne classrooms st branch sem dayOrder pool (some dur) sessTy s
      (acc.1 ++ [r.1], r.2)) acc

/-- One entry of the salvage work list (source lines 629-635). -/
structure SalvageItem where
  code : String
  title : String
  session_type : String
  faculty : String
  strength : Nat
deriving DecidableEq, Repr

/-- Build a salvage item from a sentinel row.  The source's `or`-fallbacks
(re-deriving `code` / `title` / `session_type` from the `Course` text) only
fire on falsy fields; every row built by this pipeline carries `code` and
`session_type` directly, and the `code` fallback re-extracts the identical
code from the `Course` prefix, so `code` and `session_type` are taken
verbatim.  The `title` fallback differs from the raw field only when the
title is the empty string, which affects only the display text of the
re-emitted row and nothing the scheduler decides on; the raw field is used
here. -/
def toSalvage (u : Row) : SalvageItem :=
  { code := u.code, title := u.title, session_type := u.session_type,
    faculty := u.faculty, strength := u.strength }

/-- Session demand of a salvage item. -/
def salvageReq (s : SalvageItem) : SessionReq :=
  { code := s.code, title := s.title, faculty := s.faculty, strength := s.strength }

/-- The `pool_map` of `_salvage_unscheduled` (source lines 212-217):
slot pool and expected duration per session type, `([], none)` for an
unknown type. -/
def pool_map (cfg : Config) (ty : String) : List String × Option Nat :=
  if ty == "Lecture" then (cfg.lecture_slots, some durLecture)
  else if ty == "Tutorial" then (cfg.tutorial_slots, some durTutorial)
  else if ty == "Lab" then (cfg.lab_slots, some durLab)
  else if ty == "Minor" then (cfg.minor_slots, none)
  else ([], none)

/-- The sentinel row re-emitted for a session the salvage pass still cannot
place (source line 644). -/
def remainingRow (s : SalvageItem) : Row :=
  mkUnschedRow (salvageReq s) s.session_type s.session_type

/-- Source `_salvage_unscheduled`: retry each item once, deterministically
(days then the matching pool in configured order), committing exactly like a
main-phase placement; returns the placed rows and the still-unscheduled
items. -/
def salvage_unscheduled (classrooms : List Room) (cfg : Config)
    (branch sem : String) (items : List SalvageItem) (st0 : St) :
    List Row × List SalvageItem × St :=
  items.foldl
    (fun acc s =>
      let pm := pool_map cfg s.session_type
      match findPlacement classrooms acc.2.2 branch sem cfg.days pm.1 pm.2
          (salvageReq s) s.session_type with
      | some (day, slot, rng, room) =>
        let st1 := add_booking acc.2.2 day slot rng room.name s.faculty branch sem
          s.code s.session_type
        let st2 := addStudentRange st1 branch sem day rng
        (acc.1 ++ [mkRow (salvageReq s) day slot room.name s.session_type s.session_type],
         acc.2.1, st2)
      | none => (acc.1, acc.2.1 ++ [s], acc.2.2))
    ([], [], st0)

/-! ## Output sorting (source lines 49-60 and 646-647) -/

/-- Start minutes of a slot label (the `start_minutes` key in `__init__`). -/
def start_minutes (slot : String) : Nat :=
  match splitOnChar '-' slot.data with
  | [a, _] => time_to_min ⟨a⟩
  | _ => 0

/-- The global chronological slot order `self.ordered_slots` (Python `sorted`
is a stable sort by start time). -/
def ordered_slots (cfg : Config) : List String :=
  List.insertionSort (fun a b => start_minutes a ≤ start_minutes b)
    (cfg.lecture_slots ++ cfg.tutorial_slots ++ cfg.lab_slots ++ cfg.minor_slots)

/-- Index of a label in a list with the Python dict-comprehension semantics
(`{s: i for i, s in enumerate(l)}` keeps the last index of a duplicate) and
default `999` for a missing key. -/
def dictIndex (l : List String) (s : String) : Nat :=
  ((((l.enum).filter (fun p => p.2 == s)).map (fun p => p.1)).getLast?).getD 999

/-- Lexicographic comparison of the sort keys
`(day_index, slot_index, course)`. -/
def keyLe (a b : Nat × Nat × String) : Bool :=
  decide (a.1 < b.1) ||
  (a.1 == b.1 &&
    (decide (a.2.1 < b.2.1) || (a.2.1 == b.2.1 && (a.2.2 == b.2.2 || decide (a.2.2 < b.2.2)))))

/-- The final per-branch/semester sort (source line 647); Python `list.sort`
is stable, as is insertion sort. -/
def sortRows (cfg : Config) (rows : List Row) : List Row :=
  List.insertionSort
    (fun a b =>
      keyLe (dictIndex cfg.days a.day, dictIndex (ordered_slots cfg) a.slot, a.course)
        (dictIndex cfg.days b.day, dictIndex (ordered_slots cfg) b.slot, b.course) = true)
    rows

/-! ## The per-branch/semester pipeline and `generate_all` -/

/-- Normalized course category (`Type_norm`, source line 363). -/
def ctypeNorm (r : CourseRow) : String :=
  strLower (strTrim r.ctype)

/-- The five main placement phases for one branch/semester (source lines
359-612), before the salvage pass: the category split, core labs, the two
grouped elective tracks, grouped minors, core lectures and core
tutorials. -/
def mainPhases (classrooms : List Room) (cfg : Config)
    (shufDays : Nat → List String → List String)
    (shufSess : Nat → List SessionReq → List SessionReq)
    (branch sem : String) (courses : List CourseRow) (st0 : St) :
    List Row × St :=
  let electives := courses.filter (fun r => ctypeNorm r == "elective")
  let minors := courses.filter (fun r => ctypeNorm r == "minor")
  let cores := courses.filter
    (fun r => !(ctypeNorm r == "elective" || ctypeNorm r == "minor"))
  let core_lab_rows := cores.flatMap
    (fun r => List.replicate (expandCounts r).2.2 (mkReq r))
  let acc := runLabList classrooms cfg branch sem core_lab_rows ([], st0)
  let elective_info := electives.map
    (fun r => ({ req := mkReq r, Lslots := (expandCounts r).1,
                 Tslots := (expandCounts r).2.1 } : ElecInfo))
  let maxL := elective_info.foldl (fun m e => max m e.Lslots) 0
  let maxT := elective_info.foldl (fun m e => max m e.Tslots) 0
  let acc := runElectiveTrack classrooms cfg shufDays branch sem
    (fun e => e.Lslots) cfg.lecture_slots durLecture "Lecture" "Elective-Lecture"
    "Elective Lecture " "Lecture" elective_info maxL acc
  let acc := runElectiveTrack classrooms cfg shufDays branch sem
    (fun e => e.Tslots) cfg.tutorial_slots durTutorial "Tutorial" "Elective-Tutorial"
    "Elective Tutorial " "Tutorial" elective_info maxT acc
  let acc := runMinorPhase classrooms cfg shufDays branch sem minors acc
  let core_lectures := cores.flatMap
    (fun r => List.replicate (expandCounts r).1 (mkReq r))
  let core_tutorials := cores.flatMap
    (fun r => List.replicate (expandCounts r).2.1 (mkReq r))
  let st := acc.2
  let shuffledLecs := shufSess st.rk core_lectures
  let acc := runCoreSingles classrooms cfg shufDays branch sem cfg.lecture_slots
    durLecture "Lecture" shuffledLecs (acc.1, { st with rk := st.rk + 1 })
  let st := acc.2
  let shuffledTuts := shufSess st.rk core_tutorials
  runCoreSingles classrooms cfg shufDays branch sem cfg.tutorial_slots
    durTutorial "Tutorial" shuffledTuts (acc.1, { st with rk := st.rk + 1 })

/-- Schedule one branch/semester (the body of the innermost loop of
`generate_all`, source lines 359-648): the five phases, the salvage pass and
the final sort.  `sem` is the normalized semester string `str(int(sem))`
that the source uses as the key everywhere. -/
def scheduleBranchSem (classrooms : List Room) (cfg : Config)
    (shufDays : Nat → List String → List String)
    (shufSess : Nat → List SessionReq → List SessionReq)
    (branch sem : String) (courses : List CourseRow) (st0 : St) :
    List Row × St :=
  let acc := mainPhases classrooms cfg shufDays shufSess branch sem courses st0
  let unscheduled_items := acc.1.filter (fun r => r.day == "UNSCHEDULED")
  let kept := acc.1.filter (fun r => !(r.day == "UNSCHEDULED"))
  let salvage_list := unscheduled_items.map toSalvage
  let salv := salvage_unscheduled classrooms cfg branch sem salvage_list acc.2
  (sortRows cfg (kept ++ salv.1 ++ (salv.2.1).map remainingRow), salv.2.2)

/-- The classroom record injected when the caller supplies no rooms (source
line 319). -/
def default_classroom : Room :=
  { name := "C004", capacity := 300, type := "Classroom" }

/-- One branch/semester scheduling unit: the branch name, the normalized
semester string and the course rows the dataframe splitting (the external
ingestion layer, source lines 267-356) routes to it. -/
structure BranchTask where
  branch : String
  sem : String
  courses : List CourseRow
deriving Repr

/-- Source `generate_all`, from the classroom-normalization point on: an
empty (or missing) normalized room table is replaced by the single default
classroom, then every branch/semester is scheduled in order against the one
shared state.  Returns the per-branch/semester row lists and the final
state. -/
def generate_all (cfg : Config) (classrooms_list : List Room)
    (shufDays : Nat → List String → List String)
    (shufSess : Nat → List SessionReq → List SessionReq)
    (tasks : List BranchTask) : List (String × String × List Row) × St :=
  let classrooms := if classrooms_list.isEmpty then [default_classroom]
    else classrooms_list
  tasks.foldl
    (fun acc t =>
      let r := scheduleBranchSem classrooms cfg shufDays shufSess t.branch t.sem
        t.courses acc.2
      (acc.1 ++ [(t.branch, t.sem, r.1)], r.2))
    ([], ⟨[], [], 0⟩)

/-! ## Ledger invariant checkers -/

/-- Decidable pairwise check over a list: `p` holds for every ordered pair of
distinct positions. -/
def pairwiseOK {α : Type} (p : α → α → Bool) : List α → Bool
  | [] => true
  | x :: xs => xs.all (p x) && pairwiseOK p xs

/-- Two bookings do not double-book a room: not in the same room on the same
day with overlapping ranges. -/
def roomsCompatible (b1 b2 : Booking) : Bool :=
  !(b1.room == b2.room && b1.day == b2.day && ranges_overlap b1.range b2.range)

/-- The room invariant of spec section 8, first bullet. -/
def roomLedgerOK (ledger : List Booking) : Bool :=
  pairwiseOK roomsCompatible ledger

/-- Two bookings do not double-book a (non-empty) faculty name. -/
def facultyCompatible (b1 b2 : Booking) : Bool :=
  !(b1.faculty == b2.faculty && !(b1.faculty == "") && b1.day == b2.day &&
    ranges_overlap b1.range b2.range)

/-- The faculty invariant of spec section 8, second bullet. -/
def facultyLedgerOK (ledger : List Booking) : Bool :=
  pairwiseOK facultyCompatible ledger

/-- Two bookings do not overlap for the same (branch, semester) cohort. -/
def cohortCompatible (b1 b2 : Booking) : Bool :=
  !(b1.branch == b2.branch && b1.sem == b2.sem && b1.day == b2.day &&
    ranges_overlap b1.range b2.range)

/-- The cohort invariant exactly as claimed (spec section 8, third bullet). -/
def cohortLedgerOK (ledger : List Booking) : Bool :=
  pairwiseOK cohortCompatible ledger

/-- The weakened cohort property: two same-cohort bookings on one day either
carry exactly the same range (a grouped elective/minor commit shares one
cohort reservation) or do not overlap. -/
def cohortWeakCompatible (b1 b2 : Booking) : Bool :=
  !(b1.branch == b2.branch && b1.sem == b2.sem && b1.day == b2.day &&
    ranges_overlap b1.range b2.range && !(b1.range == b2.range))

/-- The weakened cohort invariant. -/
def cohortWeakLedgerOK (ledger : List Booking) : Bool :=
  pairwiseOK cohortWeakCompatible ledger

/-- A booking of lecture kind: committed as a core/salvage `"Lecture"` or as
a grouped `"Elective-Lecture"`. -/
def lectureKind (b : Booking) : Bool :=
  b.type == "Lecture" || b.type == "Elective-Lecture"

/-- The same-day lecture-uniqueness property of the claim: no
(branch, semester, course) has two lecture-kind bookings on one day. -/
def lectureSameDayOK (ledger : List Booking) : Bool :=
  pairwiseOK
    (fun b1 b2 =>
      !(b1.branch == b2.branch && b1.sem == b2.sem && b1.course == b2.course &&
        lectureKind b1 && lectureKind b2 && b1.day == b2.day))
    ledger

/-- Every committed booking's cohort range is recorded in the cohort
reservation list (each commit path appends the placed range for its
branch/semester/day). -/
def coveredOK (ledger : List Booking) (studentB : List StudentEntry) : Bool :=
  ledger.all fun b =>
    studentB.any fun e =>
      e.branch == b.branch && e.sem == b.sem && e.day == b.day && e.range == b.range

/-- Two cohort reservations do not overlap for the same cohort and day. -/
def studentCompatible (e1 e2 : StudentEntry) : Bool :=
  !(e1.branch == e2.branch && e1.sem == e2.sem && e1.day == e2.day &&
    ranges_overlap e1.range e2.range)

/-- The cohort reservation lists are pairwise non-overlapping per
(branch, semester, day). -/
def studentOK (studentB : List StudentEntry) : Bool :=
  pairwiseOK studentCompatible studentB

/-! ## Concrete runs used as counterexamples and bug demonstrations -/

/-- The identity day-shuffle oracle: one realisable outcome of every
`random.shuffle` call (and the only one when a single working day is
configured). -/
def idShufD : Nat → List String → List String := fun _ l => l

/-- The identity session-shuffle oracle. -/
def idShufS : Nat → List SessionReq → List SessionReq := fun _ l => l

/-- One working day and one 90-minute lecture slot. -/
def cfgOneSlot : Config := ⟨["Monday"], ["09:00-10:30"], [], [], []⟩

/-- One working day and two disjoint 90-minute lecture slots. -/
def cfgTwoSlots : Config := ⟨["Monday"], ["09:00-10:30", "11:00-12:30"], [], [], []⟩

/-- One working day and one minor slot. -/
def cfgMinor : Config := ⟨["Monday"], [], [], [], ["17:30-18:30"]⟩

/-- Run for C2/C3: two elective courses that share faculty `"Dr. F"`, two
free rooms, one slot; the grouped elective phase commits both into the same
`(Monday, 09:00-10:30)`. -/
def runSharedFaculty : List (String × String × List Row) × St :=
  generate_all cfgOneSlot [⟨"R1", 100, "Classroom"⟩, ⟨"R2", 120, "Classroom"⟩]
    idShufD idShufS
    [⟨"CSE-A", "3",
      [⟨"E1", "TE1", "Dr. F", 100, "Elective", some "1-0-0-0-3"⟩,
       ⟨"E2", "TE2", "Dr. F", 100, "Elective", some "1-0-0-0-3"⟩]⟩]

/-- Run for C4: one elective course needing two lectures
(`L = 3` hours, 90-minute slots), one day, two slots. -/
def runTwoElectiveLectures : List (String × String × List Row) × St :=
  generate_all cfgTwoSlots [⟨"R1", 100, "Classroom"⟩] idShufD idShufS
    [⟨"CSE-A", "3", [⟨"E", "TE", "Dr. G", 50, "Elective", some "3-0-0-0-4"⟩]⟩]

/-- Run for C5: one minor course declaring 3 lecture hours. -/
def runMinorHours : List (String × String × List Row) × St :=
  generate_all cfgMinor [⟨"R1", 100, "Classroom"⟩] idShufD idShufS
    [⟨"CSE-A", "3", [⟨"M", "TM", "Dr. H", 50, "Minor", some "3-0-0-0-4"⟩]⟩]

/-- The minor course row of `runMinorHours`. -/
def minorCourseRow : CourseRow := ⟨"M", "TM", "Dr. H", 50, "Minor", some "3-0-0-0-4"⟩

/-- Run for C6: two elective courses, a single room, so the grouped attempt
(which needs two distinct rooms) fails everywhere and the salvage pass then
places the two index-1 lectures individually into different slots. -/
def runSalvagedGroup : List (String × String × List Row) × St :=
  generate_all cfgTwoSlots [⟨"R1", 100, "Classroom"⟩] idShufD idShufS
    [⟨"CSE-A", "3",
      [⟨"E1", "TA", "FA", 50, "Elective", some "1-0-0-0-3"⟩,
       ⟨"E2", "TB", "FB", 60, "Elective", some "1-0-0-0-3"⟩]⟩]

/-- Run for C7: the caller supplies zero rooms, yet a core lecture still gets
placed (in the injected default room). -/
def runNoRooms : List (String × String × List Row) × St :=
  generate_all cfgOneSlot [] idShufD idShufS
    [⟨"CSE-A", "3", [⟨"C", "TC", "Dr. K", 50, "Core", some "1-0-0-0-2"⟩]⟩]

/-- The output rows of the single task of a one-task run. -/
def firstTaskRows (out : List (String × String × List Row) × St) : List Row :=
  match out.1 with
  | [] => []
  | t :: _ => t.2.2

/-- The inductive invariant carried through one `generate_all` run: no room
is double-booked, the cohort reservation ranges are pairwise disjoint per
cohort and day, and every committed booking's range is recorded as a cohort
reservation. -/
def StInv (st : St) : Prop :=
  roomLedgerOK st.ledger = true ∧ studentOK st.studentB = true ∧
  coveredOK st.ledger st.studentB = true

/-- The booking entry committed for one member of a group placement. -/
def groupEntry (day slot : String) (rng : Nat × Nat) (branch sem bookTy : String)
    (p : SessionReq × String) : Booking :=
  ⟨slot, rng, p.2, p.1.faculty, branch, sem, p.1.code, bookTy, day⟩

/-- Two-room catalog used to instantiate the room-allocator contract. -/
def wRooms : List Room :=
  [⟨"A", 50, "Classroom"⟩, ⟨"B", 40, "Classroom"⟩]

/-- The smaller of the two rooms of `wRooms`. -/
def wRoomB : Room := ⟨"B", 40, "Classroom"⟩

/-- All rows of the list carry one identical `(Day, Slot)` pair (for an
unscheduled group this shared pair is the `("UNSCHEDULED", "N/A")`
sentinel). -/
def sameDaySlot : List Row → Bool
  | [] => true
  | r :: rest => rest.all (fun x => x.day == r.day && x.slot == r.slot)

/-- Sessions of a given kind that the scheduler actually creates for one
course row: per-kind expander counts for core courses; lecture and tutorial
expander counts for electives (declared elective lab hours are expanded by
no phase); exactly one `"Minor"` session for a minor course regardless of
its declared hours. -/
def sessionsOfKind (r : CourseRow) (kind : String) : Nat :=
  if ctypeNorm r == "minor" then (if kind == "Minor" then 1 else 0)
  else if ctypeNorm r == "elective" then
    (if kind == "Lecture" then (expandCounts r).1
     else if kind == "Tutorial" then (expandCounts r).2.1 else 0)
  else
    (if kind == "Lecture" then (expandCounts r).1
     else if kind == "Tutorial" then (expandCounts r).2.1
     else if kind == "Lab" then (expandCounts r).2.2 else 0)

/-! ## Basic lemmas -/

theorem ranges_overlap_symm (a b : Nat × Nat) :
    ranges_overlap a b = ranges_overlap b a := by
  simp only [ranges_overlap]
  rw [Bool.or_comm]

theorem pairwiseOK_iff {α : Type} (p : α → α → Bool) (l : List α) :
    pairwiseOK p l = true ↔ l.Pairwise (fun a b => p a b = true) := by
  induction l with
  | nil => simp [pairwiseOK]
  | cons x xs ih =>
    simp [pairwiseOK, List.pairwise_cons, ih, List.all_eq_true]

theorem pairwiseOK_cons {α : Type} (p : α → α → Bool) (x : α) (xs : List α)
    (h1 : ∀ y ∈ xs, p x y = true) (h2 : pairwiseOK p xs = true) :
    pairwiseOK p (x :: xs) = true := by
  simp only [pairwiseOK, Bool.and_eq_true, List.all_eq_true]
  exact ⟨h1, h2⟩

theorem pairwiseOK_mem {α : Type} {p : α → α → Bool} {l : List α}
    (h : pairwiseOK p l = true) {a b : α} (ha : a ∈ l) (hb : b ∈ l) (hne : a ≠ b)
    (hsym : ∀ x y, p x y = p y x) : p a b = true := by
  rw [pairwiseOK_iff] at h
  exact h.forall (fun x y hxy => by rw [hsym]; exact hxy) ha hb hne

/-! ## Room allocator lemmas -/

theorem minByCap_spec {l : List Room} {r : Room} (h : minByCap l = some r) :
    r ∈ l ∧ ∀ x ∈ l, r.capacity ≤ x.capacity := by
  match l with
  | [] => simp [minByCap] at h
  | a :: as =>
    simp only [minByCap, Option.some.injEq] at h
    subst h
    have key : ∀ (as : List Room) (a : Room),
        (as.foldl (fun best x => if x.capacity < best.capacity then x else best) a) ∈ a :: as ∧
        (as.foldl (fun best x => if x.capacity < best.capacity then x else best) a).capacity ≤
          a.capacity ∧
        ∀ x ∈ as,
          (as.foldl (fun best x => if x.capacity < best.capacity then x else best) a).capacity ≤
            x.capacity := by
      intro as
      induction as with
      | nil => intro a; simp
      | cons y ys ih =>
        intro a
        simp only [List.foldl_cons]
        by_cases hy : y.capacity < a.capacity
        · simp only [if_pos hy]
          rcases ih y with ⟨hmem, hcap, hall⟩
          refine ⟨?_, ?_, ?_⟩
          · rcases List.mem_cons.mp hmem with h | h
            · exact List.mem_cons.mpr (Or.inr (List.mem_cons.mpr (Or.inl h)))
            · exact List.mem_cons.mpr (Or.inr (List.mem_cons.mpr (Or.inr h)))
          · exact le_trans hcap (le_of_lt hy)
          · intro x hx
            rcases List.mem_cons.mp hx with h | h
            · exact h ▸ hcap
            · exact hall x h
        · simp only [if_neg hy]
          rcases ih a with ⟨hmem, hcap, hall⟩
          refine ⟨?_, hcap, ?_⟩
          · rcases List.mem_cons.mp hmem with h | h
            · exact List.mem_cons.mpr (Or.inl h)
            · exact List.mem_cons.mpr (Or.inr (List.mem_cons.mpr (Or.inr h)))
          · intro x hx
            rcases List.mem_cons.mp hx with h | h
            · exact h ▸ le_trans hcap (Nat.le_of_not_lt hy)
            · exact hall x h
    rcases key as a with ⟨hmem, hcap, hall⟩
    refine ⟨hmem, ?_⟩
    intro x hx
    rcases List.mem_cons.mp hx with h | h
    · exact h ▸ hcap
    · exact hall x h

theorem roomCandidate_parts {ledger : List Booking} {day : String} {cand : Nat × Nat}
    {strength : Nat} {roomsUsed : List String} {labOnly : Bool} {r : Room}
    (h : roomCandidate ledger day cand strength roomsUsed labOnly r = true) :
    roomsUsed.contains r.name = false ∧ strength ≤ r.capacity ∧
    room_free (roomBookingsFor ledger r.name day) cand = true := by
  simp only [roomCandidate, Bool.and_eq_true, Bool.not_eq_true'] at h
  refine ⟨h.1.1.1, ?_, h.2⟩
  have hc := h.1.1.2
  simp only [decide_eq_false_iff_not, Nat.not_lt] at hc
  exact hc

theorem chooseCandidates_mem {classrooms : List Room} {ledger : List Booking}
    {day : String} {cand : Nat × Nat} {is_lab : Bool} {strength : Nat}
    {roomsUsed : List String} {r : Room}
    (h : r ∈ chooseCandidates classrooms ledger day cand is_lab strength roomsUsed) :
    r ∈ classrooms ∧ roomsUsed.contains r.name = false ∧ strength ≤ r.capacity ∧
    room_free (roomBookingsFor ledger r.name day) cand = true := by
  simp only [chooseCandidates] at h
  split at h
  · rcases List.mem_filter.mp h with ⟨hmem, hcand⟩
    exact ⟨hmem, roomCandidate_parts hcand⟩
  · rcases List.mem_filter.mp h with ⟨hmem, hcand⟩
    exact ⟨hmem, roomCandidate_parts hcand⟩

theorem choose_room_spec {classrooms : List Room} {ledger : List Booking}
    {day : String} {cand : Nat × Nat} {is_lab : Bool} {strength : Nat}
    {roomsUsed : List String} {r : Room}
    (h : choose_room_for_session classrooms ledger day cand is_lab strength roomsUsed =
      some r) :
    r ∈ classrooms ∧ roomsUsed.contains r.name = false ∧ strength ≤ r.capacity ∧
    room_free (roomBookingsFor ledger r.name day) cand = true ∧
    ∀ x ∈ chooseCandidates classrooms ledger day cand is_lab strength roomsUsed,
      r.capacity ≤ x.capacity := by
  simp only [choose_room_for_session] at h
  rcases minByCap_spec h with ⟨hmem, hmin⟩
  rcases chooseCandidates_mem hmem with ⟨h1, h2, h3, h4⟩
  exact ⟨h1, h2, h3, h4, hmin⟩

/-! ## Placement search inversion lemmas -/

theorem findPlacement_spec {classrooms : List Room} {st : St} {branch sem : String}
    {dayOrder pool : List String} {expectedDur : Option Nat} {s : SessionReq}
    {sessTy : String} {day slot : String} {rng : Nat × Nat} {room : Room}
    (h : findPlacement classrooms st branch sem dayOrder pool expectedDur s sessTy =
      some (day, slot, rng, room)) :
    rng = slot_to_range slot ∧
    students_free (studentRangesFor st.studentB branch sem day) rng = true ∧
    same_course_same_day_conflict st.ledger day branch sem s.code sessTy = false ∧
    faculty_free (dayBookings st.ledger day) s.faculty rng = true ∧
    choose_room_for_session classrooms st.ledger day rng (sessTy == "Lab") s.strength [] =
      some room := by
  rcases List.exists_of_findSome?_eq_some h with ⟨d, _, hd⟩
  rcases List.exists_of_findSome?_eq_some hd with ⟨sl, _, hsl⟩
  simp only at hsl
  split at hsl
  case isTrue hcond =>
    split at hsl
    case h_1 room' heq =>
      simp only [Option.some.injEq, Prod.mk.injEq] at hsl
      obtain ⟨hday, hslot, hrng, hroom⟩ := hsl
      subst hday
      subst hslot
      subst hrng
      subst hroom
      simp only [Bool.and_eq_true, Bool.not_eq_true'] at hcond
      exact ⟨rfl, hcond.1.1.2, hcond.1.2, hcond.2, heq⟩
    case h_2 => exact absurd hsl (by simp)
  case isFalse => exact absurd hsl (by simp)

theorem assignGroupRooms_spec {classrooms : List Room} {ledger : List Booking}
    {branch sem day : String} {rng : Nat × Nat} {checkTy : String} :
    ∀ {needs : List SessionReq} {used : List String}
      {assigns : List (SessionReq × String)},
    assignGroupRooms classrooms ledger branch sem day rng checkTy needs used =
      some assigns →
    assigns.map Prod.fst = needs ∧
    (assigns.map Prod.snd).Nodup ∧
    ∀ p ∈ assigns, used.contains p.2 = false ∧
      room_free (roomBookingsFor ledger p.2 day) rng = true
  | [], used, assigns => by
    intro h
    simp only [assignGroupRooms, Option.some.injEq] at h
    subst h
    simp
  | e :: rest, used, assigns => by
    intro h
    simp only [assignGroupRooms] at h
    split at h
    · exact absurd h (by simp)
    · split at h
      · exact absurd h (by simp)
      · split at h
        case h_1 => exact absurd h (by simp)
        case h_2 room heq =>
          rcases Option.map_eq_some'.mp h with ⟨assigns', hrec, hassigns⟩
          subst hassigns
          rcases assignGroupRooms_spec hrec with ⟨hfst, hnd, hall⟩
          rcases choose_room_spec heq with ⟨_, husd, _, hfree, _⟩
          refine ⟨by simp [hfst], ?_, ?_⟩
          · rw [List.map_cons, List.nodup_cons]
            refine ⟨?_, hnd⟩
            intro hmem
            rcases List.mem_map.mp hmem with ⟨p, hp, hp2⟩
            have := (hall p hp).1
            rw [List.contains_cons, hp2] at this
            simp at this
          · intro p hp
            rcases List.mem_cons.mp hp with hp | hp
            · subst hp
              exact ⟨husd, hfree⟩
            · have h1 := (hall p hp).1
              rw [List.contains_cons] at h1
              simp only [Bool.or_eq_false_iff] at h1
              exact ⟨h1.2, (hall p hp).2⟩

theorem findGroupPlacement_spec {classrooms : List Room} {st : St} {branch sem : String}
    {dayOrder pool : List String} {dur : Nat} {checkTy : String}
    {needs : List SessionReq} {day slot : String} {rng : Nat × Nat}
    {assigns : List (SessionReq × String)}
    (h : findGroupPlacement classrooms st branch sem dayOrder pool dur checkTy needs =
      some (day, slot, rng, assigns)) :
    rng = slot_to_range slot ∧
    students_free (studentRangesFor st.studentB branch sem day) rng = true ∧
    assignGroupRooms classrooms st.ledger branch sem day rng checkTy needs [] =
      some assigns := by
  rcases List.exists_of_findSome?_eq_some h with ⟨d, _, hd⟩
  rcases List.exists_of_findSome?_eq_some hd with ⟨sl, _, hsl⟩
  simp only at hsl
  split at hsl
  case isTrue hcond =>
    rcases Option.map_eq_some'.mp hsl with ⟨as', hrec, heq⟩
    simp only [Prod.mk.injEq] at heq
    obtain ⟨hday, hslot, hrng, has⟩ := heq
    subst hday
    subst hslot
    subst hrng
    subst has
    simp only [Bool.and_eq_true] at hcond
    exact ⟨rfl, hcond.2, hrec⟩
  case isFalse => exact absurd hsl (by simp)

/-! ## Membership consequences of the free checks -/

theorem room_free_mem {ledger : List Booking} {name day : String} {rng : Nat × Nat}
    (h : room_free (roomBookingsFor ledger name day) rng = true)
    {b : Booking} (hb : b ∈ ledger) (h1 : b.room = name) (h2 : b.day = day) :
    ranges_overlap b.range rng = false := by
  simp only [room_free, List.all_eq_true] at h
  have hmem : b ∈ roomBookingsFor ledger name day := by
    simp [roomBookingsFor, List.mem_filter, hb, h1, h2]
  have := h b hmem
  simpa using this

theorem students_free_mem {sb : List StudentEntry} {branch sem day : String}
    {rng : Nat × Nat}
    (h : students_free (studentRangesFor sb branch sem day) rng = true)
    {e : StudentEntry} (he : e ∈ sb) (h1 : e.branch = branch) (h2 : e.sem = sem)
    (h3 : e.day = day) : ranges_overlap e.range rng = false := by
  simp only [students_free, List.all_eq_true] at h
  have hmem : e.range ∈ studentRangesFor sb branch sem day := by
    simp only [studentRangesFor, List.mem_map]
    exact ⟨e, List.mem_filter.mpr ⟨he, by simp [h1, h2, h3]⟩, rfl⟩
  have := h e.range hmem
  simpa using this

/-! ## The run invariant -/

theorem roomsCompatible_intro {b y : Booking}
    (h : b.room = y.room → b.day = y.day → ranges_overlap b.range y.range = false) :
    roomsCompatible b y = true := by
  simp only [roomsCompatible, Bool.not_eq_eq_eq_not, Bool.not_true, Bool.and_eq_false_iff]
  by_cases h1 : b.room = y.room
  · by_cases h2 : b.day = y.day
    · exact Or.inr (h h1 h2)
    · exact Or.inl (Or.inr (by simp [h2]))
  · exact Or.inl (Or.inl (by simp [h1]))

theorem studentOK_cons {sb : List StudentEntry} {branch sem day : String}
    {rng : Nat × Nat} (hok : studentOK sb = true)
    (hfree : students_free (studentRangesFor sb branch sem day) rng = true) :
    studentOK (⟨branch, sem, day, rng⟩ :: sb) = true := by
  refine pairwiseOK_cons _ _ _ ?_ hok
  intro y hy
  simp only [studentCompatible, Bool.not_eq_eq_eq_not, Bool.not_true, Bool.and_eq_false_iff]
  by_cases h1 : branch = y.branch
  · by_cases h2 : sem = y.sem
    · by_cases h3 : day = y.day
      · refine Or.inr ?_
        have := students_free_mem hfree hy h1.symm h2.symm h3.symm
        rw [ranges_overlap_symm]
        exact this
      · exact Or.inl (Or.inr (by simp [h3]))
    · exact Or.inl (Or.inl (Or.inr (by simp [h2])))
  · exact Or.inl (Or.inl (Or.inl (by simp [h1])))

theorem coveredOK_consStudent {lg : List Booking} {sb : List StudentEntry}
    (h : coveredOK lg sb = true) (e : StudentEntry) :
    coveredOK lg (e :: sb) = true := by
  simp only [coveredOK, List.all_eq_true] at h ⊢
  intro b hb
  have := h b hb
  simp only [List.any_cons, Bool.or_eq_true]
  exact Or.inr this

theorem coveredOK_cons_matching {lg : List Booking} {sb : List StudentEntry}
    {b : Booking} {e : StudentEntry} (h : coveredOK lg sb = true)
    (h1 : e.branch = b.branch) (h2 : e.sem = b.sem) (h3 : e.day = b.day)
    (h4 : e.range = b.range) : coveredOK (b :: lg) (e :: sb) = true := by
  simp only [coveredOK, List.all_eq_true] at h ⊢
  intro x hx
  rcases List.mem_cons.mp hx with hx | hx
  · subst hx
    simp only [List.any_cons, Bool.or_eq_true]
    exact Or.inl (by simp [h1, h2, h3, h4])
  · simp only [List.any_cons, Bool.or_eq_true]
    exact Or.inr (h x hx)

theorem commit_single_inv {st : St} {day slot roomName fac branch sem code ty : String}
    {rng : Nat × Nat} (hinv : StInv st)
    (hroom : room_free (roomBookingsFor st.ledger roomName day) rng = true)
    (hstud : students_free (studentRangesFor st.studentB branch sem day) rng = true) :
    StInv (addStudentRange (add_booking st day slot rng roomName fac branch sem code ty)
      branch sem day rng) := by
  rcases hinv with ⟨hr, hs, hc⟩
  refine ⟨?_, ?_, ?_⟩
  · refine pairwiseOK_cons _ _ _ ?_ hr
    intro y hy
    refine roomsCompatible_intro ?_
    intro h1 h2
    rw [ranges_overlap_symm]
    exact room_free_mem hroom hy h1.symm h2.symm
  · exact studentOK_cons hs hstud
  · exact coveredOK_cons_matching hc rfl rfl rfl rfl

theorem foldl_add_booking (day slot : String) (rng : Nat × Nat)
    (branch sem bookTy : String) :
    ∀ (assigns : List (SessionReq × String)) (st : St),
    (assigns.foldl
      (fun s p => add_booking s day slot rng p.2 p.1.faculty branch sem p.1.code bookTy)
      st) =
    { st with ledger :=
        (assigns.map (groupEntry day slot rng branch sem bookTy)).reverse ++ st.ledger }
  | [], st => by simp
  | p :: rest, st => by
    rw [List.foldl_cons, foldl_add_booking day slot rng branch sem bookTy rest]
    simp [add_booking, groupEntry]

theorem commitGroup_eq (st : St) (branch sem day slot : String) (rng : Nat × Nat)
    (bookTy : String) (assigns : List (SessionReq × String)) :
    commitGroup st branch sem day slot rng bookTy assigns =
      { ledger :=
          (assigns.map (groupEntry day slot rng branch sem bookTy)).reverse ++ st.ledger,
        studentB := ⟨branch, sem, day, rng⟩ :: st.studentB,
        rk := st.rk } := by
  simp [commitGroup, foldl_add_booking, addStudentRange]

theorem roomOK_append (day : String) (rng : Nat × Nat) :
    ∀ {es ledger : List Booking},
    (∀ e ∈ es, e.day = day) → (∀ e ∈ es, e.range = rng) →
    (es.map (fun b => b.room)).Nodup →
    (∀ e ∈ es, room_free (roomBookingsFor ledger e.room day) rng = true) →
    roomLedgerOK ledger = true → roomLedgerOK (es ++ ledger) = true
  | [], ledger => by
    intro _ _ _ _ hok
    simpa using hok
  | e :: rest, ledger => by
    intro hday hrng hnd hfree hok
    have hrest : roomLedgerOK (rest ++ ledger) = true :=
      roomOK_append day rng (fun x hx => hday x (List.mem_cons_of_mem e hx))
        (fun x hx => hrng x (List.mem_cons_of_mem e hx))
        ((List.nodup_cons.mp hnd).2)
        (fun x hx => hfree x (List.mem_cons_of_mem e hx)) hok
    refine pairwiseOK_cons _ _ _ ?_ hrest
    intro y hy
    rcases List.mem_append.mp hy with hy | hy
    · refine roomsCompatible_intro ?_
      intro h1 _
      have hmem : e.room ∈ List.map (fun b => b.room) rest := by
        rw [h1]
        exact List.mem_map.mpr ⟨y, hy, rfl⟩
      exact absurd hmem (List.nodup_cons.mp hnd).1
    · refine roomsCompatible_intro ?_
      intro h1 h2
      rw [hrng e (List.mem_cons_self e rest), ranges_overlap_symm]
      exact room_free_mem (hfree e (List.mem_cons_self e rest)) hy h1.symm
        ((hday e (List.mem_cons_self e rest)) ▸ h2.symm)

theorem commitGroup_inv {classrooms : List Room} {st : St}
    {branch sem day slot checkTy bookTy : String} {rng : Nat × Nat}
    {needs : List SessionReq} {assigns : List (SessionReq × String)}
    (hinv : StInv st)
    (hstud : students_free (studentRangesFor st.studentB branch sem day) rng = true)
    (hassign : assignGroupRooms classrooms st.ledger branch sem day rng checkTy needs [] =
      some assigns) :
    StInv (commitGroup st branch sem day slot rng bookTy assigns) := by
  rcases hinv with ⟨hr, hs, hc⟩
  rcases assignGroupRooms_spec hassign with ⟨_, hnd, hall⟩
  rw [commitGroup_eq]
  set es := (assigns.map (groupEntry day slot rng branch sem bookTy)).reverse with hes
  have hmem : ∀ e ∈ es, ∃ p ∈ assigns, e = groupEntry day slot rng branch sem bookTy p := by
    intro e he
    rw [hes, List.mem_reverse] at he
    rcases List.mem_map.mp he with ⟨p, hp, hpe⟩
    exact ⟨p, hp, hpe.symm⟩
  refine ⟨?_, ?_, ?_⟩
  · refine roomOK_append day rng ?_ ?_ ?_ ?_ hr
    · intro e he
      rcases hmem e he with ⟨p, _, hpe⟩
      rw [hpe]
      rfl
    · intro e he
      rcases hmem e he with ⟨p, _, hpe⟩
      rw [hpe]
      rfl
    · have : es.map (fun b => b.room) = (assigns.map Prod.snd).reverse := by
        rw [hes, List.map_reverse, List.map_map]
        rfl
      rw [this, List.nodup_reverse]
      exact hnd
    · intro e he
      rcases hmem e he with ⟨p, hp, hpe⟩
      rw [hpe]
      exact (hall p hp).2
  · exact studentOK_cons hs hstud
  · simp only [coveredOK, List.all_eq_true]
    intro b hb
    rcases List.mem_append.mp hb with hb | hb
    · rcases hmem b hb with ⟨p, _, hpe⟩
      simp only [List.any_cons, Bool.or_eq_true]
      exact Or.inl (by rw [hpe]; simp [groupEntry])
    · simp only [coveredOK, List.all_eq_true] at hc
      have := hc b hb
      simp only [List.any_cons, Bool.or_eq_true]
      exact Or.inr this

/-! ## Invariant preservation through the phases -/

theorem placeOne_inv {classrooms : List Room} {st : St} {branch sem : String}
    {dayOrder pool : List String} {expectedDur : Option Nat} {sessTy : String}
    {s : SessionReq} (hinv : StInv st) :
    StInv (placeOne classrooms st branch sem dayOrder pool expectedDur sessTy s).2 := by
  unfold placeOne
  split
  case h_1 x day slot rng room heq =>
    rcases findPlacement_spec heq with ⟨_, hstud, _, _, hchoose⟩
    rcases choose_room_spec hchoose with ⟨_, _, _, hfree, _⟩
    exact commit_single_inv hinv hfree hstud
  case h_2 => exact hinv

theorem foldl_preserve {α β : Type} {P : β → Prop} {f : β → α → β}
    (h : ∀ b a, P b → P (f b a)) : ∀ (l : List α) (b : β), P b → P (l.foldl f b)
  | [], _ => id
  | a :: l, b => fun hb => foldl_preserve h l (f b a) (h b a hb)

theorem runLabList_inv {classrooms : List Room} {cfg : Config} {branch sem : String}
    {labs : List SessionReq} {acc : List Row × St} (hinv : StInv acc.2) :
    StInv (runLabList classrooms cfg branch sem labs acc).2 := by
  refine foldl_preserve (P := fun acc : List Row × St => StInv acc.2) ?_ labs acc hinv
  intro b a hb
  exact placeOne_inv hb

theorem runCoreSingles_inv {classrooms : List Room} {cfg : Config}
    {shufDays : Nat → List String → List String} {branch sem : String}
    {pool : List String} {dur : Nat} {sessTy : String}
    {sessions : List SessionReq} {acc : List Row × St} (hinv : StInv acc.2) :
    StInv (runCoreSingles classrooms cfg shufDays branch sem pool dur sessTy
      sessions acc).2 := by
  refine foldl_preserve (P := fun acc : List Row × St => StInv acc.2) ?_ sessions acc hinv
  intro b a hb
  exact placeOne_inv hb

theorem electiveGroupStep_inv {classrooms : List Room} {cfg : Config}
    {shufDays : Nat → List String → List String} {branch sem : String}
    {getSlots : ElecInfo → Nat} {pool : List String} {dur : Nat}
    {checkTy bookTy labelBase sessTy : String} {info : List ElecInfo}
    {acc : List Row × St} {i : Nat} (hinv : StInv acc.2) :
    StInv (electiveGroupStep classrooms cfg shufDays branch sem getSlots pool dur
      checkTy bookTy labelBase sessTy info acc i).2 := by
  unfold electiveGroupStep
  dsimp only
  split
  · exact hinv
  · split
    case h_1 x day slot rng assigns heq =>
      rcases findGroupPlacement_spec heq with ⟨_, hstud, hassign⟩
      exact commitGroup_inv hinv hstud hassign
    case h_2 => exact hinv

theorem runElectiveTrack_inv {classrooms : List Room} {cfg : Config}
    {shufDays : Nat → List String → List String} {branch sem : String}
    {getSlots : ElecInfo → Nat} {pool : List String} {dur : Nat}
    {checkTy bookTy labelBase sessTy : String} {info : List ElecInfo}
    {maxSlots : Nat} {acc : List Row × St} (hinv : StInv acc.2) :
    StInv (runElectiveTrack classrooms cfg shufDays branch sem getSlots pool dur
      checkTy bookTy labelBase sessTy info maxSlots acc).2 := by
  refine foldl_preserve (P := fun acc : List Row × St => StInv acc.2) ?_ _ acc hinv
  intro b a hb
  exact electiveGroupStep_inv hb

theorem runMinorPhase_inv {classrooms : List Room} {cfg : Config}
    {shufDays : Nat → List String → List String} {branch sem : String}
    {minors : List CourseRow} {acc : List Row × St} (hinv : StInv acc.2) :
    StInv (runMinorPhase classrooms cfg shufDays branch sem minors acc).2 := by
  unfold runMinorPhase
  split
  · exact hinv
  · try dsimp only
    split
    case h_1 x day slot rng assigns heq =>
      rcases List.exists_of_findSome?_eq_some heq with ⟨js, _, hjs⟩
      rcases List.exists_of_findSome?_eq_some hjs with ⟨d, _, hd⟩
      try simp only at hd
      split at hd
      case isTrue hstud =>
        rcases Option.map_eq_some'.mp hd with ⟨as', hrec, heq2⟩
        simp only [Prod.mk.injEq] at heq2
        obtain ⟨h1, h2, h3, h4⟩ := heq2
        subst h1
        subst h2
        subst h3
        subst h4
        exact commitGroup_inv hinv hstud hrec
      case isFalse => exact absurd hd (by simp)
    case h_2 => exact hinv

theorem salvage_unscheduled_inv {classrooms : List Room} {cfg : Config}
    {branch sem : String} {items : List SalvageItem} {st0 : St} (hinv : StInv st0) :
    StInv (salvage_unscheduled classrooms cfg branch sem items st0).2.2 := by
  refine foldl_preserve
    (P := fun acc : List Row × List SalvageItem × St => StInv acc.2.2) ?_ items _ hinv
  intro b a hb
  simp only
  split
  case h_1 x day slot rng room heq =>
    rcases findPlacement_spec heq with ⟨_, hstud, _, _, hchoose⟩
    rcases choose_room_spec hchoose with ⟨_, _, _, hfree, _⟩
    exact commit_single_inv hb hfree hstud
  case h_2 => exact hb

theorem mainPhases_inv {classrooms : List Room} {cfg : Config}
    {shufDays : Nat → List String → List String}
    {shufSess : Nat → List SessionReq → List SessionReq}
    {branch sem : String} {courses : List CourseRow} {st0 : St} (hinv : StInv st0) :
    StInv (mainPhases classrooms cfg shufDays shufSess branch sem courses st0).2 := by
  unfold mainPhases
  exact runCoreSingles_inv (runCoreSingles_inv (runMinorPhase_inv (runElectiveTrack_inv
    (runElectiveTrack_inv (runLabList_inv hinv)))))

theorem scheduleBranchSem_inv {classrooms : List Room} {cfg : Config}
    {shufDays : Nat → List String → List String}
    {shufSess : Nat → List SessionReq → List SessionReq}
    {branch sem : String} {courses : List CourseRow} {st0 : St} (hinv : StInv st0) :
    StInv (scheduleBranchSem classrooms cfg shufDays shufSess branch sem courses st0).2 := by
  unfold scheduleBranchSem
  exact salvage_unscheduled_inv (mainPhases_inv hinv)

theorem generate_all_inv (cfg : Config) (classrooms_list : List Room)
    (shufDays : Nat → List String → List String)
    (shufSess : Nat → List SessionReq → List SessionReq)
    (tasks : List BranchTask) :
    StInv (generate_all cfg classrooms_list shufDays shufSess tasks).2 := by
  unfold generate_all
  refine foldl_preserve
    (P := fun acc : List (String × String × List Row) × St => StInv acc.2) ?_ tasks _ ?_
  · intro b a hb
    exact scheduleBranchSem_inv hb
  · exact ⟨rfl, rfl, rfl⟩

/-! ## The weak cohort property follows from the invariant -/

theorem beq_comm_dec {α : Type} [DecidableEq α] (a b : α) : (a == b) = (b == a) := by
  by_cases h : a = b
  · simp [h]
  · rw [beq_eq_false_iff_ne.mpr h, beq_eq_false_iff_ne.mpr (Ne.symm h)]

theorem studentCompatible_symm (x y : StudentEntry) :
    studentCompatible x y = studentCompatible y x := by
  unfold studentCompatible
  rw [beq_comm_dec x.branch, beq_comm_dec x.sem, beq_comm_dec x.day, ranges_overlap_symm]

theorem coveredOK_mem {lg : List Booking} {sb : List StudentEntry}
    (h : coveredOK lg sb = true) {b : Booking} (hb : b ∈ lg) :
    ∃ e ∈ sb, e.branch = b.branch ∧ e.sem = b.sem ∧ e.day = b.day ∧
      e.range = b.range := by
  simp only [coveredOK, List.all_eq_true] at h
  have hx := h b hb
  simp only [List.any_eq_true, Bool.and_eq_true, beq_iff_eq] at hx
  rcases hx with ⟨e, he, ⟨⟨⟨h1, h2⟩, h3⟩, h4⟩⟩
  exact ⟨e, he, h1, h2, h3, h4⟩

theorem cohortWeak_of_inv {lg : List Booking} {sb : List StudentEntry}
    (hs : studentOK sb = true) (hc : coveredOK lg sb = true) :
    cohortWeakLedgerOK lg = true := by
  rw [cohortWeakLedgerOK, pairwiseOK_iff]
  refine List.pairwise_of_forall_mem_list ?_
  intro b1 h1 b2 h2
  cases hcomp : cohortWeakCompatible b1 b2 with
  | true => rfl
  | false =>
    exfalso
    simp only [cohortWeakCompatible, Bool.not_eq_false', Bool.and_eq_true,
      Bool.not_eq_true', beq_iff_eq] at hcomp
    obtain ⟨⟨⟨⟨hbr, hsem⟩, hday⟩, hovl⟩, hrange⟩ := hcomp
    have hrne : b1.range ≠ b2.range := by
      intro hre
      rw [hre] at hrange
      simp at hrange
    rcases coveredOK_mem hc h1 with ⟨e1, he1, e1br, e1sem, e1day, e1rng⟩
    rcases coveredOK_mem hc h2 with ⟨e2, he2, e2br, e2sem, e2day, e2rng⟩
    have hene : e1 ≠ e2 := by
      intro he
      apply hrne
      rw [← e1rng, ← e2rng, he]
    have hcompat := pairwiseOK_mem hs he1 he2 hene studentCompatible_symm
    simp only [studentCompatible, Bool.not_eq_eq_eq_not, Bool.not_true,
      Bool.and_eq_false_iff, beq_eq_false_iff_ne] at hcompat
    rcases hcompat with ((hf | hf) | hf) | hf
    · exact hf (by rw [e1br, e2br, hbr])
    · exact hf (by rw [e1sem, e2sem, hsem])
    · exact hf (by rw [e1day, e2day, hday])
    · rw [e1rng, e2rng, hovl] at hf
      exact Bool.true_eq_false ▸ hf

/-! ## Ceiling-division arithmetic -/

theorem ceil_div_eq (a b : Nat) (hb : 0 < b) :
    ⌈(a : ℚ) / (b : ℚ)⌉₊ = (a + b - 1) / b := by
  have hbq : (0 : ℚ) < (b : ℚ) := by exact_mod_cast hb
  apply le_antisymm
  · rw [Nat.ceil_le, div_le_iff₀ hbq]
    have h1 : b * ((a + b - 1) / b) + (a + b - 1) % b = a + b - 1 :=
      Nat.div_add_mod _ _
    have h2 : (a + b - 1) % b < b := Nat.mod_lt _ hb
    have key : a ≤ b * ((a + b - 1) / b) := by omega
    calc (a : ℚ) ≤ ((b * ((a + b - 1) / b) : Nat) : ℚ) := by exact_mod_cast key
    _ = (((a + b - 1) / b : Nat) : ℚ) * (b : ℚ) := by push_cast; ring
  · have hle : (a : ℚ) ≤ ((⌈(a : ℚ) / (b : ℚ)⌉₊ : Nat) : ℚ) * (b : ℚ) := by
      have hc := Nat.le_ceil ((a : ℚ) / (b : ℚ))
      calc (a : ℚ) = (a : ℚ) / (b : ℚ) * (b : ℚ) := by field_simp
      _ ≤ ((⌈(a : ℚ) / (b : ℚ)⌉₊ : Nat) : ℚ) * (b : ℚ) :=
          mul_le_mul_of_nonneg_right hc (le_of_lt hbq)
    have hA : a ≤ ⌈(a : ℚ) / (b : ℚ)⌉₊ * b := by exact_mod_cast hle
    have h1 : b * ((a + b - 1) / b) + (a + b - 1) % b = a + b - 1 :=
      Nat.div_add_mod _ _
    have h2 : (a + b - 1) % b < b := Nat.mod_lt _ hb
    by_contra hlt
    push_neg at hlt
    have hmul : b * (⌈(a : ℚ) / (b : ℚ)⌉₊ + 1) ≤ b * ((a + b - 1) / b) :=
      Nat.mul_le_mul_left b hlt
    rw [Nat.mul_succ] at hmul
    rw [Nat.mul_comm] at hA
    omega

theorem slots_needed_eq (lh th ph : Nat) :
    slots_needed lh th ph =
      (⌈(lh * 60 : ℚ) / 90⌉₊, ⌈(th * 60 : ℚ) / 60⌉₊, ⌈(ph * 60 : ℚ) / 120⌉₊) := by
  have cast60 : ∀ (x : Nat), ((x * 60 : Nat) : ℚ) = (x * 60 : ℚ) := by
    intro x
    push_cast
    ring
  have comp : ∀ (x d : Nat), 0 < d →
      (if x > 0 then ceilDiv (x * 60) d else 0) = ⌈((x * 60 : Nat) : ℚ) / (d : ℚ)⌉₊ := by
    intro x d hd
    rw [ceil_div_eq _ _ hd]
    by_cases hx : x > 0
    · rw [if_pos hx]
      rfl
    · rw [if_neg hx]
      have hx0 : x = 0 := by omega
      subst hx0
      simp [Nat.div_eq_of_lt, Nat.sub_lt hd]
  have e1 := comp lh 90 (by norm_num)
  have e2 := comp th 60 (by norm_num)
  have e3 := comp ph 120 (by norm_num)
  rw [cast60 lh] at e1
  rw [cast60 th] at e2
  rw [cast60 ph] at e3
  have n1 : ((90 : Nat) : ℚ) = (90 : ℚ) := by norm_num
  have n2 : ((60 : Nat) : ℚ) = (60 : ℚ) := by norm_num
  have n3 : ((120 : Nat) : ℚ) = (120 : ℚ) := by norm_num
  rw [n1] at e1
  rw [n2] at e2
  rw [n3] at e3
  simp only [slots_needed, durLecture, durTutorial, durLab, e1, e2, e3]

/-! ## Type-irrelevance of non-lab room requests -/

theorem minByCap_map (f : Room → Room) (hf : ∀ r, (f r).capacity = r.capacity) :
    ∀ l : List Room, minByCap (l.map f) = (minByCap l).map f
  | [] => rfl
  | a :: as => by
    simp only [List.map_cons, minByCap, Option.map_some']
    congr 1
    induction as generalizing a with
    | nil => rfl
    | cons y ys ih =>
      simp only [List.map_cons, List.foldl_cons, hf]
      by_cases hy : y.capacity < a.capacity
      · rw [if_pos hy, if_pos hy]
        exact ih y
      · rw [if_neg hy, if_neg hy]
        exact ih a

theorem roomCandidate_retype (ledger : List Booking) (day : String) (cand : Nat × Nat)
    (strength : Nat) (roomsUsed : List String) (retype : Room → String) (r : Room) :
    roomCandidate ledger day cand strength roomsUsed false
      { r with type := retype r } =
    roomCandidate ledger day cand strength roomsUsed false r := by
  simp [roomCandidate]

/-! ## Claim theorems -/

/-- C1: in every run of `generate_all` (over any room catalog, slot
configuration, branch/semester task list and shuffle outcomes), the final
booking ledger never books one room for two overlapping ranges on the same
day: every placement path commits only a room that `_choose_room_for_session`
returned, which requires `_room_free` over that room's bookings for the day,
and `_add_booking` appends the entry to that room's state. -/
theorem claim_C1_no_room_overlap (cfg : Config) (classrooms_list : List Room)
    (shufDays : Nat → List String → List String)
    (shufSess : Nat → List SessionReq → List SessionReq)
    (tasks : List BranchTask) :
    roomLedgerOK (generate_all cfg classrooms_list shufDays shufSess tasks).2.ledger =
      true :=
  (generate_all_inv cfg classrooms_list shufDays shufSess tasks).1

/-- C2 (bug demonstration): the faculty no-overlap invariant fails on the
code.  In `runSharedFaculty` two elective courses share faculty `"Dr. F"`;
the grouped elective phase checks `_faculty_free` against the ledger as it
was before the group commits, so both courses pass and are committed into
the same `(Monday, 09:00-10:30)` slot, double-booking the faculty. -/
theorem claim_C2_faculty_clash :
    facultyLedgerOK runSharedFaculty.2.ledger = false := by decide

/-- C3 (counterexample): the cohort no-overlap invariant, read over the
committed bookings as the claim states it, is false: the same grouped
elective commit books two courses of cohort `(CSE-A, 3)` into one identical
slot, so two same-cohort bookings overlap on the same day. -/
theorem claim_C3_counterexample :
    cohortLedgerOK runSharedFaculty.2.ledger = false := by decide

/-- C3 (amended): in every run of `generate_all`, two committed bookings of
the same (branch, semester) cohort on the same day either carry exactly the
same time range — they were committed by one grouped elective/minor
placement, which reserves the cohort range once for the whole group — or
their ranges do not overlap. -/
theorem claim_C3_amended_cohort (cfg : Config) (classrooms_list : List Room)
    (shufDays : Nat → List String → List String)
    (shufSess : Nat → List SessionReq → List SessionReq)
    (tasks : List BranchTask) :
    cohortWeakLedgerOK (generate_all cfg classrooms_list shufDays shufSess tasks).2.ledger =
      true := by
  have h := generate_all_inv cfg classrooms_list shufDays shufSess tasks
  exact cohortWeak_of_inv h.2.1 h.2.2

/-- C4 (bug demonstration): the same-day lecture-uniqueness rule fails for
elective lectures.  In `runTwoElectiveLectures` one elective course needs two
lecture sessions; the grouped elective phase stores its bookings with type
`"Elective-Lecture"`, which the `_same_course_same_day_conflict` filter
(`b["type"] == "Lecture"`) never matches, so the second lecture is committed
on the same Monday as the first. -/
theorem claim_C4_same_day_lectures :
    lectureSameDayOK runTwoElectiveLectures.2.ledger = false := by decide

/-- C5 (counterexample): for the minor course `"M"` declaring 3 lecture
hours the Session Expander derives 2 sessions, but the run produces exactly
one result row for the course (the minors phase schedules one grouped
session per minor course regardless of its declared hours). -/
theorem claim_C5_counterexample :
    (firstTaskRows runMinorHours).countP (fun r => r.code == "M") = 1 ∧
    sessionExpanderCount minorCourseRow = 2 := by decide

/-- C6 (counterexample): with a single room, the grouped elective attempt
for index 1 fails everywhere (two distinct rooms are required), both
lectures are queued unscheduled, and the salvage pass then places them
individually — the final output has the two index-1 elective lectures of
cohort (CSE-A, 3) placed at two different `(day, slot)` pairs, violating the
all-or-nothing claim. -/
theorem claim_C6_counterexample :
    ((firstTaskRows runSalvagedGroup).filter
      (fun r => r.session_type == "Lecture")).map (fun r => (r.day, r.slot)) =
    [("Monday", "09:00-10:30"), ("Monday", "11:00-12:30")] := by decide

/-- C7 (counterexample): with zero rooms supplied, the run does not leave
every session unscheduled: the scheduler substitutes the default classroom
`C004` (capacity 300) and places the core lecture in it. -/
theorem claim_C7_counterexample :
    (firstTaskRows runNoRooms).map (fun r => (r.day, r.room)) =
      [("Monday", "C004")] := by decide

/-- C7 (amended): when the caller supplies zero rooms, `generate_all`
behaves exactly as if the single default classroom `C004` of capacity 300
had been supplied: the room allocator draws candidates from that default,
so sessions that fit it can be (and are) scheduled rather than all ending
unscheduled. -/
theorem claim_C7_amended_default_room (cfg : Config)
    (shufDays : Nat → List String → List String)
    (shufSess : Nat → List SessionReq → List SessionReq)
    (tasks : List BranchTask) :
    generate_all cfg [] shufDays shufSess tasks =
      generate_all cfg [default_classroom] shufDays shufSess tasks := rfl

/-- C8: the room allocator's contract.  Whenever
`_choose_room_for_session` returns a room, that room is drawn from the
catalog, has capacity at least the required strength, is not in the caller's
exclusion set, is free for the whole candidate range on that day, and has
minimal capacity among the candidate set it was drawn from; for a lab
session whose primary (lab-typed) candidate set is empty, the candidate set
is the fallback scan over rooms of any type; and an empty candidate set
yields `none` rather than an error. -/
theorem claim_C8_room_allocator_contract (classrooms : List Room)
    (ledger : List Booking) (day : String) (cand : Nat × Nat) (is_lab : Bool)
    (strength : Nat) (roomsUsed : List String) :
    (∀ r : Room,
      choose_room_for_session classrooms ledger day cand is_lab strength roomsUsed =
        some r →
      r ∈ classrooms ∧ strength ≤ r.capacity ∧ roomsUsed.contains r.name = false ∧
      room_free (roomBookingsFor ledger r.name day) cand = true ∧
      ∀ x ∈ chooseCandidates classrooms ledger day cand is_lab strength roomsUsed,
        r.capacity ≤ x.capacity) ∧
    ((classrooms.filter (roomCandidate ledger day cand strength roomsUsed is_lab)).isEmpty =
        true → is_lab = true →
      chooseCandidates classrooms ledger day cand is_lab strength roomsUsed =
        classrooms.filter (roomCandidate ledger day cand strength roomsUsed false)) ∧
    (chooseCandidates classrooms ledger day cand is_lab strength roomsUsed = [] →
      choose_room_for_session classrooms ledger day cand is_lab strength roomsUsed =
        none) := by
  refine ⟨?_, ?_, ?_⟩
  · intro r h
    rcases choose_room_spec h with ⟨h1, h2, h3, h4, h5⟩
    exact ⟨h1, h3, h2, h4, h5⟩
  · intro hempty hlab
    subst hlab
    simp [chooseCandidates, hempty]
  · intro hempty
    rw [choose_room_for_session, hempty]
    rfl

/-- C8 (witness): at a concrete two-room catalog with an empty ledger and a
non-lab request of strength 30, the allocator returns the 40-seat room `B`,
and the contract instance holds there. -/
theorem claim_C8_witness :
    wRoomB ∈ wRooms ∧ 30 ≤ wRoomB.capacity ∧
    ([] : List String).contains wRoomB.name = false ∧
    room_free (roomBookingsFor [] wRoomB.name "Monday") (0, 90) = true ∧
    ∀ x ∈ chooseCandidates wRooms [] "Monday" (0, 90) false 30 [],
      wRoomB.capacity ≤ x.capacity :=
  (claim_C8_room_allocator_contract wRooms [] "Monday" (0, 90) false 30 []).1
    wRoomB (by decide)

/-- C9: the Session Expander returns per-kind slot counts equal to the
ceiling of `hours*60 / kind_duration` (so zero declared hours yield zero
sessions of that kind), a missing LTPSC cell yields zero sessions of every
kind, and a malformed LTPSC string (one whose first five dash-separated
fields do not all parse as integers) also yields zero sessions of every
kind, with no failure path. -/
theorem claim_C9_session_expander :
    (∀ lh th ph : Nat,
      slots_needed lh th ph =
        (⌈(lh * 60 : ℚ) / 90⌉₊, ⌈(th * 60 : ℚ) / 60⌉₊, ⌈(ph * 60 : ℚ) / 120⌉₊)) ∧
    parse_ltpsc none = (0, 0, 0) ∧
    (∀ s : String, parse_ltpsc_fields s = none → parse_ltpsc (some s) = (0, 0, 0)) := by
  refine ⟨slots_needed_eq, rfl, ?_⟩
  intro s hs
  rw [parse_ltpsc, hs]

/-- C9 (witness): the expander instance at declared hours `(3, 1, 2)` and
the degraded result on the malformed LTPSC string `"x-y"`. -/
theorem claim_C9_witness :
    slots_needed 3 1 2 = (2, 1, 1) ∧ parse_ltpsc (some "x-y") = (0, 0, 0) := by
  refine ⟨by decide, ?_⟩
  exact claim_C9_session_expander.2.2 "x-y" (by decide)

/-- C10: for a non-lab request (`is_lab = false`) the allocator places no
restriction on room type: the candidate filter reduces to the
exclusion/capacity/freeness conditions alone, and the chosen room is
invariant under arbitrarily rewriting every room's type string — in
particular a lab-typed room is assigned to a lecture, tutorial or minor
session whenever it is the smallest adequate free room. -/
theorem claim_C10_no_type_restriction (classrooms : List Room)
    (ledger : List Booking) (day : String) (cand : Nat × Nat) (strength : Nat)
    (roomsUsed : List String) (retype : Room → String) :
    classrooms.filter (roomCandidate ledger day cand strength roomsUsed false) =
      classrooms.filter (fun r =>
        !(roomsUsed.contains r.name) && !(r.capacity < strength) &&
        room_free (roomBookingsFor ledger r.name day) cand) ∧
    choose_room_for_session (classrooms.map (fun r => { r with type := retype r }))
        ledger day cand false strength roomsUsed =
      (choose_room_for_session classrooms ledger day cand false strength roomsUsed).map
        (fun r => { r with type := retype r }) := by
  constructor
  · refine List.filter_congr ?_
    intro r _
    simp [roomCandidate]
  · have hcand : ∀ (cls : List Room),
        chooseCandidates cls ledger day cand false strength roomsUsed =
          cls.filter (roomCandidate ledger day cand strength roomsUsed false) := by
      intro cls
      simp [chooseCandidates]
    rw [choose_room_for_session, choose_room_for_session, hcand, hcand,
      List.filter_map]
    have hpred : (roomCandidate ledger day cand strength roomsUsed false ∘
        fun r => { r with type := retype r }) =
        roomCandidate ledger day cand strength roomsUsed false := by
      funext r
      exact roomCandidate_retype ledger day cand strength roomsUsed retype r
    rw [hpred]
    exact minByCap_map (fun r => { r with type := retype r }) (fun r => rfl) _

theorem sameDaySlot_map {α : Type} (f : α → Row) (l : List α) (day slot : String)
    (hf : ∀ a, (f a).day = day ∧ (f a).slot = slot) :
    sameDaySlot (l.map f) = true := by
  cases l with
  | nil => rfl
  | cons a as =>
    simp only [List.map_cons, sameDaySlot, List.all_eq_true]
    intro x hx
    rcases List.mem_map.mp hx with ⟨y, _, hy⟩
    rw [← hy, (hf y).1, (hf y).2, (hf a).1, (hf a).2]
    simp

/-- C6 (amended): within the grouped elective phase, each lecture-track (or
tutorial-track) index is all-or-nothing: the rows the group attempt emits for
index `i` — one per elective course still needing its `i`-th session — all
carry one identical `(Day, Slot)` pair, the `("UNSCHEDULED", "N/A")` sentinel
pair when the attempt failed.  (In the final output this can be broken by
the later salvage pass, which re-places sentinel rows individually at
possibly different slots, as `claim_C6_counterexample` shows.) -/
theorem claim_C6_amended_group_atomic (classrooms : List Room) (cfg : Config)
    (shufDays : Nat → List String → List String) (branch sem : String)
    (getSlots : ElecInfo → Nat) (pool : List String) (dur : Nat)
    (checkTy bookTy labelBase sessTy : String) (info : List ElecInfo)
    (acc : List Row × St) (i : Nat) :
    ∃ newRows : List Row,
      (electiveGroupStep classrooms cfg shufDays branch sem getSlots pool dur
        checkTy bookTy labelBase sessTy info acc i).1 = acc.1 ++ newRows ∧
      sameDaySlot newRows = true ∧
      newRows.length = (info.filter (fun e => i ≤ getSlots e)).length := by
  unfold electiveGroupStep
  dsimp only
  split
  case isTrue hempty =>
    refine ⟨[], by rw [List.append_nil], rfl, ?_⟩
    rw [List.isEmpty_iff] at hempty
    rw [List.map_eq_nil_iff] at hempty
    rw [hempty]
    rfl
  case isFalse =>
    split
    case h_1 x day slot rng assigns heq =>
      refine ⟨_, rfl, ?_, ?_⟩
      · exact sameDaySlot_map _ _ day slot (fun p => ⟨rfl, rfl⟩)
      · rcases findGroupPlacement_spec heq with ⟨_, _, hassign⟩
        rcases assignGroupRooms_spec hassign with ⟨hfst, _, _⟩
        have hlen : assigns.length =
            ((info.filter (fun e => i ≤ getSlots e)).map (fun e => e.req)).length := by
          rw [← hfst, List.length_map]
        simp only [List.length_map] at hlen ⊢
        exact hlen
    case h_2 =>
      refine ⟨_, rfl, ?_, ?_⟩
      · exact sameDaySlot_map _ _ "UNSCHEDULED" "N/A" (fun p => ⟨rfl, rfl⟩)
      · simp only [List.length_map]

/-! ## Generic counting lemmas -/

theorem sum_map_ite_count {α : Type} (q : α → Bool) :
    ∀ l : List α, (l.map (fun a => if q a then 1 else 0)).sum = l.countP q
  | [] => rfl
  | a :: l => by
    rw [List.map_cons, List.sum_cons, sum_map_ite_count q l, List.countP_cons]
    omega

theorem sum_map_add_distrib {α : Type} (f g : α → Nat) :
    ∀ l : List α, (l.map (fun a => f a + g a)).sum = (l.map f).sum + (l.map g).sum
  | [] => rfl
  | a :: l => by
    rw [List.map_cons, List.sum_cons, sum_map_add_distrib f g l, List.map_cons,
      List.map_cons, List.sum_cons, List.sum_cons]
    omega

theorem sum_map_zero {α : Type} : ∀ l : List α, (l.map (fun _ => (0 : Nat))).sum = 0
  | [] => rfl
  | a :: l => by
    rw [List.map_cons, List.sum_cons, sum_map_zero l]

theorem sum_comm_list {α β : Type} (F : α → β → Nat) :
    ∀ (I : List α) (J : List β),
    (I.map (fun i => (J.map (F i)).sum)).sum = (J.map (fun j => (I.map (fun i => F i j)).sum)).sum
  | [], J => by
    simp only [List.map_nil, List.sum_nil]
    exact (sum_map_zero J).symm
  | i :: I, J => by
    rw [List.map_cons, List.sum_cons, sum_comm_list F I J]
    have : (J.map (fun j => (List.map (fun i => F i j) (i :: I)).sum)) =
        (J.map (fun j => F i j + (I.map (fun x => F x j)).sum)) := by
      refine List.map_congr_left ?_
      intro j _
      rw [List.map_cons, List.sum_cons]
    rw [this, sum_map_add_distrib]

theorem range'_countP_le (n : Nat) :
    ∀ (m s : Nat), (List.range' s m).countP (fun i => decide (i ≤ n)) = min (n + 1 - s) m
  | 0, s => by simp
  | m + 1, s => by
    rw [List.range'_succ, List.countP_cons, range'_countP_le n m (s + 1)]
    by_cases hs : s ≤ n
    · rw [if_pos (by simpa using hs)]
      omega
    · rw [if_neg (by simpa using hs)]
      omega

theorem foldl_max_init {α : Type} (g : α → Nat) :
    ∀ (l : List α) (acc : Nat), acc ≤ l.foldl (fun m x => max m (g x)) acc
  | [], acc => le_refl acc
  | x :: l, acc =>
    le_trans (Nat.le_max_left acc (g x)) (foldl_max_init g l (max acc (g x)))

theorem foldl_max_bound {α : Type} (g : α → Nat) :
    ∀ (l : List α) (acc : Nat) (e : α), e ∈ l →
      g e ≤ l.foldl (fun m x => max m (g x)) acc
  | x :: l, acc, e, he => by
    rcases List.mem_cons.mp he with he | he
    · subst he
      exact le_trans (Nat.le_max_right acc (g e)) (foldl_max_init g l _)
    · exact foldl_max_bound g l (max acc (g x)) e he

theorem countP_partition {α : Type} (p q : α → Bool) :
    ∀ l : List α,
    (l.filter q).countP p + (l.filter (fun x => !q x)).countP p = l.countP p := by
  intro l
  rw [List.countP_filter, List.countP_filter]
  induction l with
  | nil => rfl
  | cons x xs ih =>
    rw [List.countP_cons, List.countP_cons, List.countP_cons]
    by_cases hq : q x = true
    · by_cases hp : p x = true <;> simp [hp, hq] <;> omega
    · have hq' : q x = false := by simp [hq]
      by_cases hp : p x = true <;> simp [hp, hq'] <;> omega

theorem sum_map_filter_split {α : Type} (f : α → Nat) (q : α → Bool) :
    ∀ l : List α,
    (l.map f).sum = ((l.filter q).map f).sum + ((l.filter (fun x => !q x)).map f).sum
  | [] => rfl
  | a :: l => by
    by_cases hq : q a = true
    · rw [List.map_cons, List.sum_cons, sum_map_filter_split f q l,
        List.filter_cons_of_pos hq, List.filter_cons_of_neg (by simp [hq]),
        List.map_cons, List.sum_cons]
      omega
    · have hq' : q a = false := by simp [hq]
      rw [List.map_cons, List.sum_cons, sum_map_filter_split f q l,
        List.filter_cons_of_neg (by simp [hq']), List.filter_cons_of_pos (by simp [hq']),
        List.map_cons, List.sum_cons]
      omega

theorem flatMap_replicate_countP {α β : Type} (q : β → Bool) (n : α → Nat) (f : α → β) :
    ∀ l : List α,
    (l.flatMap (fun a => List.replicate (n a) (f a))).countP q =
      (l.map (fun a => if q (f a) then n a else 0)).sum
  | [] => rfl
  | a :: l => by
    rw [List.flatMap_cons, List.countP_append, List.countP_replicate,
      flatMap_replicate_countP q n f l, List.map_cons, List.sum_cons]

theorem foldl_count {α : Type} {p : Row → Bool} {step : (List Row × St) → α → (List Row × St)}
    {g : α → Nat}
    (hstep : ∀ acc a, ((step acc a).1).countP p = acc.1.countP p + g a) :
    ∀ (l : List α) (acc : List Row × St),
    ((l.foldl step acc).1).countP p = acc.1.countP p + (l.map g).sum
  | [], acc => by simp
  | a :: l, acc => by
    rw [List.foldl_cons, foldl_count hstep l (step acc a), hstep acc a, List.map_cons,
      List.sum_cons]
    omega

/-! ## Per-phase row counting -/

theorem countP_ext {α : Type} (p q : α → Bool) (h : ∀ a, p a = q a) :
    ∀ l : List α, l.countP p = l.countP q
  | [] => rfl
  | a :: l => by rw [List.countP_cons, List.countP_cons, countP_ext p q h l, h a]

theorem append_single_countP {α : Type} (p : α → Bool) (l : List α) (a : α) :
    (l ++ [a]).countP p = l.countP p + (if p a then 1 else 0) := by
  rw [List.countP_append, List.countP_cons]
  simp

theorem placeOne_row (classrooms : List Room) (st : St) (branch sem : String)
    (dayOrder pool : List String) (expectedDur : Option Nat) (sessTy : String)
    (s : SessionReq) :
    ((placeOne classrooms st branch sem dayOrder pool expectedDur sessTy s).1).code =
      s.code ∧
    ((placeOne classrooms st branch sem dayOrder pool expectedDur sessTy s).1).session_type =
      sessTy := by
  unfold placeOne
  split <;> exact ⟨rfl, rfl⟩

theorem runLabList_count (classrooms : List Room) (cfg : Config) (branch sem c k : String) :
    ∀ (labs : List SessionReq) (acc : List Row × St),
    ((runLabList classrooms cfg branch sem labs acc).1).countP
        (fun r => r.code == c && r.session_type == k) =
      acc.1.countP (fun r => r.code == c && r.session_type == k) +
        labs.countP (fun s => s.code == c && (("Lab" : String) == k))
  | [], acc => by simp [runLabList]
  | lab :: labs, acc => by
    have hstep : runLabList classrooms cfg branch sem (lab :: labs) acc =
        runLabList classrooms cfg branch sem labs
          (acc.1 ++ [(placeOne classrooms acc.2 branch sem cfg.days cfg.lab_slots
            (some durLab) "Lab" lab).1],
           (placeOne classrooms acc.2 branch sem cfg.days cfg.lab_slots
            (some durLab) "Lab" lab).2) := rfl
    rw [hstep, runLabList_count classrooms cfg branch sem c k labs _,
      append_single_countP, List.countP_cons]
    have h1 := placeOne_row classrooms acc.2 branch sem cfg.days cfg.lab_slots
      (some durLab) "Lab" lab
    rw [h1.1, h1.2]
    omega

theorem runCoreSingles_count (classrooms : List Room) (cfg : Config)
    (shufDays : Nat → List String → List String) (branch sem : String)
    (pool : List String) (dur : Nat) (sessTy c k : String) :
    ∀ (sessions : List SessionReq) (acc : List Row × St),
    ((runCoreSingles classrooms cfg shufDays branch sem pool dur sessTy
        sessions acc).1).countP (fun r => r.code == c && r.session_type == k) =
      acc.1.countP (fun r => r.code == c && r.session_type == k) +
        sessions.countP (fun s => s.code == c && (sessTy == k))
  | [], acc => by simp [runCoreSingles]
  | s :: sessions, acc => by
    have hstep : runCoreSingles classrooms cfg shufDays branch sem pool dur sessTy
        (s :: sessions) acc =
        runCoreSingles classrooms cfg shufDays branch sem pool dur sessTy sessions
          (acc.1 ++ [(placeOne classrooms { acc.2 with rk := acc.2.rk + 1 } branch sem
            (shufDays acc.2.rk cfg.days) pool (some dur) sessTy s).1],
           (placeOne classrooms { acc.2 with rk := acc.2.rk + 1 } branch sem
            (shufDays acc.2.rk cfg.days) pool (some dur) sessTy s).2) := rfl
    rw [hstep, runCoreSingles_count classrooms cfg shufDays branch sem pool dur
      sessTy c k sessions _, append_single_countP, List.countP_cons]
    have h1 := placeOne_row classrooms { acc.2 with rk := acc.2.rk + 1 } branch sem
      (shufDays acc.2.rk cfg.days) pool (some dur) sessTy s
    rw [h1.1, h1.2]
    omega

theorem electiveGroupStep_count (classrooms : List Room) (cfg : Config)
    (shufDays : Nat → List String → List String) (branch sem : String)
    (getSlots : ElecInfo → Nat) (pool : List String) (dur : Nat)
    (checkTy bookTy labelBase sessTy : String) (info : List ElecInfo)
    (c k : String) (acc : List Row × St) (i : Nat) :
    ((electiveGroupStep classrooms cfg shufDays branch sem getSlots pool dur
        checkTy bookTy labelBase sessTy info acc i).1).countP
      (fun r => r.code == c && r.session_type == k) =
    acc.1.countP (fun r => r.code == c && r.session_type == k) +
      (info.filter (fun e => decide (i ≤ getSlots e))).countP
        (fun e => e.req.code == c && (sessTy == k)) := by
  unfold electiveGroupStep
  dsimp only
  split
  case isTrue hempty =>
    rw [List.isEmpty_iff, List.map_eq_nil_iff] at hempty
    rw [hempty]
    simp
  case isFalse hne =>
    split
    case h_1 x day slot rng assigns heq =>
      dsimp only
      rw [List.countP_append]
      congr 1
      rcases findGroupPlacement_spec heq with ⟨_, _, hassign⟩
      rcases assignGroupRooms_spec hassign with ⟨hfst, _, _⟩
      rw [List.countP_map]
      refine (countP_ext _ (((fun s : SessionReq => s.code == c && (sessTy == k))) ∘
        Prod.fst) (fun pr => rfl) assigns).trans ?_
      rw [← List.countP_map, hfst, List.countP_map]
      exact countP_ext _ _ (fun e => rfl) _
    case h_2 =>
      dsimp only
      rw [List.countP_append]
      congr 1
      rw [List.countP_map, List.countP_map]
      exact countP_ext _ _ (fun e => rfl) _

theorem runElectiveTrack_count (classrooms : List Room) (cfg : Config)
    (shufDays : Nat → List String → List String) (branch sem : String)
    (getSlots : ElecInfo → Nat) (pool : List String) (dur : Nat)
    (checkTy bookTy labelBase sessTy : String) (info : List ElecInfo)
    (maxSlots : Nat) (c k : String) (acc : List Row × St) :
    ((runElectiveTrack classrooms cfg shufDays branch sem getSlots pool dur
        checkTy bookTy labelBase sessTy info maxSlots acc).1).countP
      (fun r => r.code == c && r.session_type == k) =
    acc.1.countP (fun r => r.code == c && r.session_type == k) +
      ((List.range' 1 maxSlots).map (fun i =>
        (info.filter (fun e => decide (i ≤ getSlots e))).countP
          (fun e => e.req.code == c && (sessTy == k)))).sum := by
  unfold runElectiveTrack
  exact foldl_count
    (fun acc2 i => electiveGroupStep_count classrooms cfg shufDays branch sem getSlots
      pool dur checkTy bookTy labelBase sessTy info c k acc2 i)
    (List.range' 1 maxSlots) acc

theorem runMinorPhase_count (classrooms : List Room) (cfg : Config)
    (shufDays : Nat → List String → List String) (branch sem : String)
    (minors : List CourseRow) (c k : String) (acc : List Row × St) :
    ((runMinorPhase classrooms cfg shufDays branch sem minors acc).1).countP
        (fun r => r.code == c && r.session_type == k) =
      acc.1.countP (fun r => r.code == c && r.session_type == k) +
        minors.countP (fun r => r.code == c && (("Minor" : String) == k)) := by
  unfold runMinorPhase
  split
  case isTrue hempty =>
    rw [List.isEmpty_iff] at hempty
    rw [hempty]
    simp
  case isFalse =>
    try dsimp only
    split
    case h_1 x day slot rng assigns heq =>
      dsimp only
      rw [List.countP_append]
      congr 1
      rcases List.exists_of_findSome?_eq_some heq with ⟨js, _, hjs⟩
      rcases List.exists_of_findSome?_eq_some hjs with ⟨d, _, hd⟩
      try simp only at hd
      split at hd
      · rcases Option.map_eq_some'.mp hd with ⟨as2, hrec, heq2⟩
        simp only [Prod.mk.injEq] at heq2
        obtain ⟨h1, h2, h3, h4⟩ := heq2
        subst h4
        rcases assignGroupRooms_spec hrec with ⟨hfst, _, _⟩
        rw [List.countP_map]
        refine (countP_ext _ (((fun s : SessionReq =>
          s.code == c && (("Minor" : String) == k))) ∘ Prod.fst)
          (fun pr => rfl) as2).trans ?_
        rw [← List.countP_map, hfst, List.countP_map]
        exact countP_ext _ _ (fun r => rfl) _
      · exact absurd hd (by simp)
    case h_2 =>
      dsimp only
      rw [List.countP_append]
      congr 1
      rw [List.countP_map]
      exact countP_ext _ _ (fun r => rfl) _

theorem foldl_count_pair {α : Type} {p : Row → Bool} {q : α → Bool}
    {step : (List Row × List α × St) → α → (List Row × List α × St)}
    (hstep : ∀ acc a,
      ((step acc a).1).countP p + ((step acc a).2.1).countP q =
        acc.1.countP p + acc.2.1.countP q + (if q a then 1 else 0)) :
    ∀ (l : List α) (acc : List Row × List α × St),
    ((l.foldl step acc).1).countP p + ((l.foldl step acc).2.1).countP q =
      acc.1.countP p + acc.2.1.countP q + l.countP q
  | [], acc => by simp
  | a :: l, acc => by
    rw [List.foldl_cons, foldl_count_pair hstep l (step acc a), hstep acc a,
      List.countP_cons]
    omega

theorem salvage_unscheduled_count (classrooms : List Room) (cfg : Config)
    (branch sem c k : String) (items : List SalvageItem) (st0 : St) :
    ((salvage_unscheduled classrooms cfg branch sem items st0).1).countP
        (fun r => r.code == c && r.session_type == k) +
      ((salvage_unscheduled classrooms cfg branch sem items st0).2.1).countP
        (fun s => s.code == c && s.session_type == k) =
      items.countP (fun s => s.code == c && s.session_type == k) := by
  unfold salvage_unscheduled
  refine (foldl_count_pair ?_ items ([], [], st0)).trans ?_
  · intro acc s
    dsimp only
    split
    case h_1 x day slot rng room heq =>
      dsimp only
      rw [append_single_countP]
      dsimp only [mkRow, salvageReq]
      omega
    case h_2 =>
      dsimp only
      rw [append_single_countP]
      omega
  · simp

theorem track_total {getSlots : ElecInfo → Nat} (ge : ElecInfo → Bool)
    (info : List ElecInfo) (m : Nat) :
    ((List.range' 1 m).map (fun i =>
      (info.filter (fun e => decide (i ≤ getSlots e))).countP ge)).sum =
    (info.map (fun e => if ge e then min (getSlots e) m else 0)).sum := by
  have h1 : ∀ i : Nat,
      (info.filter (fun e => decide (i ≤ getSlots e))).countP ge =
      (info.map (fun e => if ge e && decide (i ≤ getSlots e) then 1 else 0)).sum := by
    intro i
    rw [List.countP_filter, ← sum_map_ite_count]
  rw [List.map_congr_left (fun i _ => h1 i)]
  rw [sum_comm_list (fun i e => if ge e && decide (i ≤ getSlots e) then 1 else 0)
    (List.range' 1 m) info]
  refine congrArg List.sum (List.map_congr_left ?_)
  intro e he
  by_cases hge : ge e = true
  · have h2 : (List.map (fun i => if ge e && decide (i ≤ getSlots e) then 1 else 0)
        (List.range' 1 m)).sum =
        (List.range' 1 m).countP (fun i => decide (i ≤ getSlots e)) := by
      rw [← sum_map_ite_count]
      refine congrArg List.sum (List.map_congr_left ?_)
      intro i _
      rw [hge, Bool.true_and]
    rw [h2, range'_countP_le]
    simp only [hge, if_true]
    rw [Nat.add_sub_cancel]
  · have hge2 : ge e = false := by simp [hge]
    have h2 : (List.map (fun i => if ge e && decide (i ≤ getSlots e) then 1 else 0)
        (List.range' 1 m)).sum = 0 := by
      have hz : ∀ i ∈ List.range' 1 m,
          (if ge e && decide (i ≤ getSlots e) then 1 else 0) = (0 : Nat) := by
        intro i _
        rw [hge2]
        rfl
      rw [List.map_congr_left hz]
      exact sum_map_zero _
    rw [h2, hge2]
    rfl

theorem min_collapse (g : ElecInfo → Nat) (ge : ElecInfo → Bool) (info : List ElecInfo) :
    (info.map (fun e =>
      if ge e then min (g e) (info.foldl (fun m x => max m (g x)) 0) else 0)).sum =
    (info.map (fun e => if ge e then g e else 0)).sum := by
  refine congrArg List.sum (List.map_congr_left ?_)
  intro e he
  by_cases hge : ge e = true
  · simp only [hge, if_true]
    exact Nat.min_eq_left (foldl_max_bound g info 0 e he)
  · have hge2 : ge e = false := by simp [hge]
    rw [hge2]
    rfl

theorem elec_pointwise (r : CourseRow) (c k : String)
    (h : (ctypeNorm r == "elective") = true) :
    (if r.code == c then sessionsOfKind r k else 0) =
      (if r.code == c && (("Lecture" : String) == k) then (expandCounts r).1 else 0) +
      (if r.code == c && (("Tutorial" : String) == k) then (expandCounts r).2.1 else 0) := by
  have hm : (ctypeNorm r == "minor") = false := by
    rw [beq_iff_eq.mp h]
    rfl
  by_cases hc : (r.code == c) = true
  · simp only [sessionsOfKind, hm, h, hc, Bool.true_and, if_true, Bool.false_eq_true,
      if_false]
    by_cases hk1 : k = "Lecture"
    · subst hk1
      simp
    · by_cases hk2 : k = "Tutorial"
      · subst hk2
        simp
      · simp [beq_eq_false_iff_ne.mpr hk1, beq_eq_false_iff_ne.mpr hk2,
          beq_eq_false_iff_ne.mpr (Ne.symm hk1), beq_eq_false_iff_ne.mpr (Ne.symm hk2)]
  · have hc2 : (r.code == c) = false := by simp [hc]
    simp [hc2]

theorem minor_pointwise (r : CourseRow) (c k : String)
    (h : (ctypeNorm r == "minor") = true) :
    (if r.code == c then sessionsOfKind r k else 0) =
      (if r.code == c && (("Minor" : String) == k) then 1 else 0) := by
  by_cases hc : (r.code == c) = true
  · simp only [sessionsOfKind, h, hc, Bool.true_and, if_true]
    by_cases hk : k = "Minor"
    · subst hk
      simp
    · simp [beq_eq_false_iff_ne.mpr hk, beq_eq_false_iff_ne.mpr (Ne.symm hk)]
  · have hc2 : (r.code == c) = false := by simp [hc]
    simp [hc2]

theorem core_pointwise (r : CourseRow) (c k : String)
    (h1 : (ctypeNorm r == "elective") = false) (h2 : (ctypeNorm r == "minor") = false) :
    (if r.code == c then sessionsOfKind r k else 0) =
      (if r.code == c && (("Lab" : String) == k) then (expandCounts r).2.2 else 0) +
      ((if r.code == c && (("Lecture" : String) == k) then (expandCounts r).1 else 0) +
       (if r.code == c && (("Tutorial" : String) == k) then (expandCounts r).2.1 else 0)) := by
  by_cases hc : (r.code == c) = true
  · simp only [sessionsOfKind, h1, h2, hc, Bool.true_and, if_true, Bool.false_eq_true,
      if_false]
    by_cases hk1 : k = "Lecture"
    · subst hk1
      simp
    · by_cases hk2 : k = "Tutorial"
      · subst hk2
        simp
      · by_cases hk3 : k = "Lab"
        · subst hk3
          simp
        · simp [beq_eq_false_iff_ne.mpr hk1, beq_eq_false_iff_ne.mpr hk2,
            beq_eq_false_iff_ne.mpr hk3, beq_eq_false_iff_ne.mpr (Ne.symm hk1),
            beq_eq_false_iff_ne.mpr (Ne.symm hk2), beq_eq_false_iff_ne.mpr (Ne.symm hk3)]
  · have hc2 : (r.code == c) = false := by simp [hc]
    simp [hc2]

theorem minors_filter_eq (courses : List CourseRow) :
    (courses.filter (fun x => !(ctypeNorm x == "elective"))).filter
      (fun r => ctypeNorm r == "minor") =
    courses.filter (fun r => ctypeNorm r == "minor") := by
  rw [List.filter_filter]
  refine List.filter_congr ?_
  intro r _
  by_cases hm : (ctypeNorm r == "minor") = true
  · have he : (ctypeNorm r == "elective") = false := by
      rw [beq_iff_eq.mp hm]
      rfl
    rw [hm, he]
    rfl
  · have hm2 : (ctypeNorm r == "minor") = false := by simp [hm]
    rw [hm2]
    rfl

theorem cores_filter_eq (courses : List CourseRow) :
    (courses.filter (fun x => !(ctypeNorm x == "elective"))).filter
      (fun x => !(ctypeNorm x == "minor")) =
    courses.filter (fun r => !(ctypeNorm r == "elective" || ctypeNorm r == "minor")) := by
  rw [List.filter_filter]
  refine List.filter_congr ?_
  intro r _
  cases h1 : (ctypeNorm r == "elective") <;> cases h2 : (ctypeNorm r == "minor") <;> rfl

theorem remainingRow_countP (c k : String) (l : List SalvageItem) :
    (l.map remainingRow).countP (fun r => r.code == c && r.session_type == k) =
      l.countP (fun s => s.code == c && s.session_type == k) := by
  rw [List.countP_map]
  exact countP_ext _ _ (fun s => rfl) l

theorem toSalvage_countP (c k : String) (l : List Row) :
    (l.map toSalvage).countP (fun s => s.code == c && s.session_type == k) =
      l.countP (fun r => r.code == c && r.session_type == k) := by
  rw [List.countP_map]
  exact countP_ext _ _ (fun u => rfl) l

theorem salvage_assembly (classrooms : List Room) (cfg : Config) (branch sem c k : String)
    (rows : List Row) (st : St) :
    (sortRows cfg
      ((rows.filter (fun r => !(r.day == "UNSCHEDULED"))) ++
        (salvage_unscheduled classrooms cfg branch sem
          ((rows.filter (fun r => r.day == "UNSCHEDULED")).map toSalvage) st).1 ++
        ((salvage_unscheduled classrooms cfg branch sem
          ((rows.filter (fun r => r.day == "UNSCHEDULED")).map toSalvage) st).2.1).map
          remainingRow)).countP (fun r => r.code == c && r.session_type == k) =
    rows.countP (fun r => r.code == c && r.session_type == k) := by
  unfold sortRows
  rw [List.Perm.countP_eq _ (List.perm_insertionSort _ _)]
  rw [List.countP_append, List.countP_append, remainingRow_countP]
  have hsalv := salvage_unscheduled_count classrooms cfg branch sem c k
    ((rows.filter (fun r => r.day == "UNSCHEDULED")).map toSalvage) st
  rw [toSalvage_countP] at hsalv
  have hpart := countP_partition (fun r => r.code == c && r.session_type == k)
    (fun r => r.day == "UNSCHEDULED") rows
  omega

set_option maxHeartbeats 1000000 in
theorem mainPhases_count (classrooms : List Room) (cfg : Config)
    (shufDays : Nat → List String → List String)
    (shufSess : Nat → List SessionReq → List SessionReq)
    (branch sem : String) (courses : List CourseRow) (st0 : St) (c k : String)
    (hperm : ∀ n (l : List SessionReq), (shufSess n l).Perm l) :
    ((mainPhases classrooms cfg shufDays shufSess branch sem courses st0).1).countP
        (fun r => r.code == c && r.session_type == k) =
      (courses.map (fun cr => if cr.code == c then sessionsOfKind cr k else 0)).sum := by
  unfold mainPhases
  dsimp only
  rw [runCoreSingles_count]
  dsimp only
  rw [runCoreSingles_count]
  dsimp only
  rw [runMinorPhase_count]
  rw [runElectiveTrack_count]
  rw [runElectiveTrack_count]
  rw [runLabList_count]
  dsimp only
  rw [List.countP_nil]
  rw [List.Perm.countP_eq _ (hperm _ _), List.Perm.countP_eq _ (hperm _ _)]
  rw [flatMap_replicate_countP, flatMap_replicate_countP, flatMap_replicate_countP]
  rw [track_total, track_total]
  rw [min_collapse (fun e => e.Lslots), min_collapse (fun e => e.Tslots)]
  rw [List.map_map, List.map_map]
  rw [← sum_map_ite_count]
  simp only [Function.comp_def]
  dsimp only [mkReq]
  rw [sum_map_filter_split (fun cr => if cr.code == c then sessionsOfKind cr k else 0)
    (fun r => ctypeNorm r == "elective") courses]
  rw [sum_map_filter_split (fun cr => if cr.code == c then sessionsOfKind cr k else 0)
    (fun r => ctypeNorm r == "minor")
    (courses.filter (fun x => !(ctypeNorm x == "elective")))]
  rw [minors_filter_eq, cores_filter_eq]
  have hE : (List.map (fun cr => if cr.code == c then sessionsOfKind cr k else 0)
      (List.filter (fun r => ctypeNorm r == "elective") courses)).sum =
      (List.map (fun x => if x.code == c && (("Lecture" : String) == k) then
          (expandCounts x).1 else 0)
        (List.filter (fun r => ctypeNorm r == "elective") courses)).sum +
      (List.map (fun x => if x.code == c && (("Tutorial" : String) == k) then
          (expandCounts x).2.1 else 0)
        (List.filter (fun r => ctypeNorm r == "elective") courses)).sum := by
    rw [← sum_map_add_distrib]
    refine congrArg List.sum (List.map_congr_left ?_)
    intro r hr
    exact elec_pointwise r c k (List.mem_filter.mp hr).2
  have hM : (List.map (fun cr => if cr.code == c then sessionsOfKind cr k else 0)
      (List.filter (fun r => ctypeNorm r == "minor") courses)).sum =
      (List.map (fun x => if x.code == c && (("Minor" : String) == k) then 1 else 0)
        (List.filter (fun r => ctypeNorm r == "minor") courses)).sum := by
    refine congrArg List.sum (List.map_congr_left ?_)
    intro r hr
    exact minor_pointwise r c k (List.mem_filter.mp hr).2
  have hC : (List.map (fun cr => if cr.code == c then sessionsOfKind cr k else 0)
      (List.filter (fun r => !(ctypeNorm r == "elective" || ctypeNorm r == "minor"))
        courses)).sum =
      (List.map (fun x => if x.code == c && (("Lab" : String) == k) then
          (expandCounts x).2.2 else 0)
        (List.filter (fun r => !(ctypeNorm r == "elective" || ctypeNorm r == "minor"))
          courses)).sum +
      ((List.map (fun x => if x.code == c && (("Lecture" : String) == k) then
          (expandCounts x).1 else 0)
        (List.filter (fun r => !(ctypeNorm r == "elective" || ctypeNorm r == "minor"))
          courses)).sum +
       (List.map (fun x => if x.code == c && (("Tutorial" : String) == k) then
          (expandCounts x).2.1 else 0)
        (List.filter (fun r => !(ctypeNorm r == "elective" || ctypeNorm r == "minor"))
          courses)).sum) := by
    rw [← sum_map_add_distrib, ← sum_map_add_distrib]
    refine congrArg List.sum (List.map_congr_left ?_)
    intro r hr
    have hh := (List.mem_filter.mp hr).2
    simp only [Bool.not_eq_true', Bool.or_eq_false_iff] at hh
    exact core_pointwise r c k hh.1 hh.2
  rw [hE, hM, hC]
  omega

/-- C5 (amended): for every branch/semester run and every course code and
session kind, the number of output rows (placed plus UNSCHEDULED) with that
code and kind equals the number of sessions the scheduler actually expands
for the matching course rows: the per-kind Session-Expander counts for core
courses, the lecture and tutorial expander counts for electives (declared
elective lab hours produce no sessions), and exactly one `"Minor"` session
per minor course regardless of its declared hours.  The hypothesis states
that the session-order shuffle oracle returns permutations, as
`random.shuffle` does. -/
theorem claim_C5_amended_session_counts (classrooms : List Room) (cfg : Config)
    (shufDays : Nat → List String → List String)
    (shufSess : Nat → List SessionReq → List SessionReq)
    (branch sem : String) (courses : List CourseRow) (st0 : St) (c k : String)
    (hperm : ∀ n (l : List SessionReq), (shufSess n l).Perm l) :
    ((scheduleBranchSem classrooms cfg shufDays shufSess branch sem courses st0).1).countP
        (fun r => r.code == c && r.session_type == k) =
      (courses.map (fun cr => if cr.code == c then sessionsOfKind cr k else 0)).sum := by
  unfold scheduleBranchSem
  dsimp only
  exact (salvage_assembly classrooms cfg branch sem c k
    (mainPhases classrooms cfg shufDays shufSess branch sem courses st0).1
    (mainPhases classrooms cfg shufDays shufSess branch sem courses st0).2).trans
    (mainPhases_count classrooms cfg shufDays shufSess branch sem courses st0 c k hperm)

/-- C5 (amended, witness): the session-count equation instantiated on the
concrete minor-course run of `claim_C5_counterexample`, with the identity
shuffle oracle. -/
theorem claim_C5_amended_witness :
    ((scheduleBranchSem [⟨"R1", 100, "Classroom"⟩] cfgMinor idShufD idShufS "CSE-A" "3"
      [minorCourseRow] ⟨[], [], 0⟩).1).countP
        (fun r => r.code == "M" && r.session_type == "Minor") = 1 :=
  (claim_C5_amended_session_counts [⟨"R1", 100, "Classroom"⟩] cfgMinor idShufD idShufS
    "CSE-A" "3" [minorCourseRow] ⟨[], [], 0⟩ "M" "Minor"
    (fun n l => List.Perm.refl l)).trans (by decide)

end Timetable
